import Mathlib

/-!
# The software VSync source of `HWComposer` (`HWComposer::VSyncThread`)

A shallow embedding of `services/surfaceflinger/DisplayHardware/HWComposer.h`,
lines 93-150: the thread that fakes the VSync event on systems without one.

* `nsecs_t` is `int64_t`. A value is an `Int`; every arithmetic result of lines 117-123
  goes through a reduction `wrap` to the range of the type. The code is the embedding
  at `wrap64`, the two's complement reduction modulo `2^64` that the machine performs
  on a signed overflow. At `unbounded` (no reduction) `nsecs_t` is read as a
  mathematical integer, which is the reading of the statements that assume no
  overflow.
* C++ `/` and `%` on signed integers truncate towards zero: `Int.tdiv`, `Int.tmod`.
  A zero divisor, and a quotient that is not a value of the type, are undefined
  behaviour of `%` in C++ whatever the machine does; the embedding reports them as an
  outcome of its own (`Outcome.undefined`) instead of inventing a value.
* the fields `tv_sec` and `tv_nsec` of `struct timespec` have C types declared outside
  the file; a quotient and a remainder of an `int64_t` by `1000000000` are kept as
  they are.
* `systemTime(CLOCK_MONOTONIC)` and the result of `clock_nanosleep` are inputs of an
  iteration (`now`, `sleepResult`).
* the call `mHwc.mEventHandler.onVSyncReceived(dpy, timestamp)` is an output: the list
  of calls an iteration made.
-/

namespace HWComposer

/-- The least value of `int64_t`, `-2^63`. -/
def INT64_MIN : Int := -9223372036854775808

/-- The greatest value of `int64_t`, `2^63 - 1`. -/
def INT64_MAX : Int := 9223372036854775807

/-- The `int64_t` that an exact arithmetic result becomes: the value congruent to it
modulo `2^64` in the range `INT64_MIN .. INT64_MAX`. -/
def wrap64 (x : Int) : Int :=
  (x - INT64_MIN) % 18446744073709551616 + INT64_MIN

/-- No reduction at all: `nsecs_t` read as a mathematical integer. -/
def unbounded (x : Int) : Int := x

/-- Whether an exact result is an `int64_t` value, that is, whether computing it does
not overflow. -/
def fitsInt64 (x : Int) : Bool :=
  decide (INT64_MIN ≤ x) && decide (x ≤ INT64_MAX)

/-- One call `onVSyncReceived(dpy, timestamp)` on the event handler (line 46, line 134). -/
structure VSyncCall where
  dpy : Int
  timestamp : Int
deriving DecidableEq, Repr

/-- The `struct timespec` handed to `clock_nanosleep` (lines 125-127). -/
structure Timespec where
  tv_sec : Int
  tv_nsec : Int
deriving DecidableEq, Repr

/-- The data members of `VSyncThread` that the code reads and writes (lines 97-99).
`mHwc`, `mLock` and `mCondition` carry no data of their own. -/
structure VSyncThread where
  mEnabled : Bool
  mNextFakeVSync : Int
  mRefreshPeriod : Int
deriving DecidableEq, Repr

/-- The constructor `VSyncThread(HWComposer& hwc)` (lines 140-144); the argument is
`hwc.mRefreshPeriod`. -/
def VSyncThread.new (refreshPeriod : Int) : VSyncThread :=
  { mEnabled := false, mNextFakeVSync := 0, mRefreshPeriod := refreshPeriod }

/-- The method `setEnabled(bool enabled)` (lines 145-149): the flag write; the signal on
the condition variable has no effect on the data. -/
def setEnabled (s : VSyncThread) (enabled : Bool) : VSyncThread :=
  { s with mEnabled := enabled }

/-- Lines 114-122 of `threadLoop`: from `period`, `now` and the stored deadline, the
target deadline `next_vsync` and whether the branch `sleep < 0` ("we missed") was
taken. `none` is the `%` of line 120 where C++ leaves it undefined: `period = 0`, or
a quotient that is not a value of the type (`INT64_MIN % -1`). -/
def computeDeadline (wrap : Int → Int) (period now mNextFakeVSync : Int) :
    Option (Int × Bool) :=
  let next_vsync := mNextFakeVSync
  let sleep := wrap (next_vsync - now)
  if sleep < 0 then
    if period = 0 ∨
        wrap (Int.tdiv (wrap (now - next_vsync)) period)
          ≠ Int.tdiv (wrap (now - next_vsync)) period then none
    else
      let sleep := wrap (period - Int.tmod (wrap (now - next_vsync)) period)
      let next_vsync := wrap (now + sleep)
      some (next_vsync, true)
  else some (next_vsync, false)

/-- Lines 125-127 of `threadLoop`: the absolute deadline as a `timespec`. -/
def mkTimespec (next_vsync : Int) : Timespec :=
  { tv_sec := Int.tdiv next_vsync 1000000000, tv_nsec := Int.tmod next_vsync 1000000000 }

/-- Lines 132-135 of `threadLoop`: the handler is called when `clock_nanosleep`
returned 0, and only then. -/
def fireCalls (sleepResult next_vsync : Int) : List VSyncCall :=
  if sleepResult = 0 then [{ dpy := 0, timestamp := next_vsync }] else []

/-- What one completed iteration of `threadLoop` did: the members afterwards, the
target deadline `next_vsync`, whether the deadline had been missed, the `timespec`
slept on, the handler calls made, and the value returned. -/
structure Iteration where
  state : VSyncThread
  next_vsync : Int
  missed : Bool
  spec : Timespec
  calls : List VSyncCall
  ret : Bool
deriving DecidableEq, Repr

/-- The ways one call of `threadLoop` can go. -/
inductive Outcome where
  /-- the loop `while (!mEnabled) mCondition.wait(mLock)` does not exit -/
  | blocked : Outcome
  /-- the `%` of line 120 is undefined (`period = 0`, or `INT64_MIN % -1`) -/
  | undefined : Outcome
  /-- the call ran to its `return` -/
  | done : Iteration → Outcome
deriving DecidableEq, Repr

/-- The method `threadLoop()` (lines 106-137), for the clock reading `now` and the
result `sleepResult` of `clock_nanosleep`. -/
def threadLoop (wrap : Int → Int) (s : VSyncThread) (now sleepResult : Int) : Outcome :=
  if s.mEnabled = false then Outcome.blocked
  else
    match computeDeadline wrap s.mRefreshPeriod now s.mNextFakeVSync with
    | none => Outcome.undefined
    | some (next_vsync, missed) =>
      Outcome.done
        { state := { s with mNextFakeVSync := wrap (next_vsync + s.mRefreshPeriod) }
          next_vsync := next_vsync
          missed := missed
          spec := mkTimespec next_vsync
          calls := fireCalls sleepResult next_vsync
          ret := true }

/-- Modelled from the spec: the loop of the base class `Thread`, which is not part of
the source file ("After firing, advance the stored deadline by exactly one period and
loop"): successive iterations of `threadLoop`, each on the members left by the one
before, as long as `threadLoop` returns `true`. An input is the pair (clock reading,
result of `clock_nanosleep`) of one iteration; `none` when an iteration does not
complete. -/
def runLoop (wrap : Int → Int) (s : VSyncThread) :
    List (Int × Int) → Option (VSyncThread × List Iteration)
  | [] => some (s, [])
  | (now, sleepResult) :: rest =>
    match threadLoop wrap s now sleepResult with
    | Outcome.done it =>
      if it.ret = true then
        match runLoop wrap it.state rest with
        | some (s', its) => some (s', it :: its)
        | none => none
      else some (it.state, [it])
    | _ => none

/-- All handler calls of a list of iterations, in order. -/
def deliveries (its : List Iteration) : List VSyncCall :=
  its.flatMap (fun it => it.calls)

/-- No signed overflow in one iteration: the exact result of every operation of lines
117, 120, 121 and 123 on `nsecs_t` values, the quotient behind `%` included, is an
`int64_t` value. -/
def noOverflow (period now mNextFakeVSync : Int) : Bool :=
  let next_vsync := mNextFakeVSync
  let sleep := next_vsync - now
  fitsInt64 sleep &&
    (if sleep < 0 then
      fitsInt64 (now - next_vsync) &&
      fitsInt64 (Int.tdiv (now - next_vsync) period) &&
      fitsInt64 (period - Int.tmod (now - next_vsync) period) &&
      fitsInt64 (now + (period - Int.tmod (now - next_vsync) period)) &&
      fitsInt64 (now + (period - Int.tmod (now - next_vsync) period) + period)
    else fitsInt64 (next_vsync + period))

/-- No signed overflow in any iteration of the run of the code on the given inputs. -/
def runNoOverflow (s : VSyncThread) : List (Int × Int) → Bool
  | [] => true
  | (now, sleepResult) :: rest =>
    noOverflow s.mRefreshPeriod now s.mNextFakeVSync &&
      (match threadLoop wrap64 s now sleepResult with
       | Outcome.done it => runNoOverflow it.state rest
       | _ => true)

/-! ## The timer thread interleaved with `setEnabled` -/

/-- Where the timer thread stands inside `threadLoop`. -/
inductive Pc where
  /-- at the test `while (!mEnabled)` of line 109 -/
  | check : Pc
  /-- past the lock scope, before line 114 -/
  | compute : Pc
  /-- inside `clock_nanosleep`, sleeping until `next_vsync` -/
  | sleeping (next_vsync : Int) : Pc
  /-- after `clock_nanosleep` has returned `result`, before the test of line 132 -/
  | woke (next_vsync : Int) (result : Int) : Pc
deriving DecidableEq, Repr

/-- The shared members together with the position of the timer thread. -/
structure Sys where
  thread : VSyncThread
  pc : Pc
deriving DecidableEq, Repr

/-- The atomic steps: a call of `setEnabled` from another thread, and the four phases
of `threadLoop`. -/
inductive Action where
  | setEnabled (enabled : Bool) : Action
  | passCheck : Action
  | computeDeadline (now : Int) : Action
  | sleepReturns (result : Int) : Action
  | fire : Action
deriving DecidableEq, Repr

/-- A handler call together with the value of `mEnabled` at the moment of the call. -/
structure Delivery where
  call : VSyncCall
  enabled : Bool
deriving DecidableEq, Repr

/-- One atomic step. `none` when the step cannot be taken in this state (the thread is
elsewhere, the wait loop does not exit, or the `%` of line 120 is undefined). -/
def step (wrap : Int → Int) (σ : Sys) : Action → Option (Sys × List Delivery)
  | Action.setEnabled b => some ({ σ with thread := setEnabled σ.thread b }, [])
  | Action.passCheck =>
    match σ.pc with
    | Pc.check => if σ.thread.mEnabled = false then none else some ({ σ with pc := Pc.compute }, [])
    | _ => none
  | Action.computeDeadline now =>
    match σ.pc with
    | Pc.compute =>
      match computeDeadline wrap σ.thread.mRefreshPeriod now σ.thread.mNextFakeVSync with
      | none => none
      | some (next_vsync, _) =>
        some ({ thread := { σ.thread with
                  mNextFakeVSync := wrap (next_vsync + σ.thread.mRefreshPeriod) }
                pc := Pc.sleeping next_vsync }, [])
    | _ => none
  | Action.sleepReturns result =>
    match σ.pc with
    | Pc.sleeping next_vsync => some ({ σ with pc := Pc.woke next_vsync result }, [])
    | _ => none
  | Action.fire =>
    match σ.pc with
    | Pc.woke next_vsync result =>
      some ({ σ with pc := Pc.check },
            (fireCalls result next_vsync).map (fun c => { call := c, enabled := σ.thread.mEnabled }))
    | _ => none

/-- A sequence of atomic steps; the deliveries are collected in order. -/
def runSys (wrap : Int → Int) (σ : Sys) : List Action → Option (Sys × List Delivery)
  | [] => some (σ, [])
  | a :: rest =>
    match step wrap σ a with
    | none => none
    | some (σ₁, ds) =>
      match runSys wrap σ₁ rest with
      | none => none
      | some (σ₂, ds') => some (σ₂, ds ++ ds')

/-- The system right after construction: members as the constructor leaves them, the
thread at the start of `threadLoop`. -/
def Sys.init (refreshPeriod : Int) : Sys :=
  { thread := VSyncThread.new refreshPeriod, pc := Pc.check }

/-! ## Sanity checks of the embedding -/

example : threadLoop wrap64 (setEnabled (VSyncThread.new 10) true) 25 0
    = Outcome.done { state := ⟨true, 40, 10⟩, next_vsync := 30, missed := true,
                     spec := ⟨0, 30⟩, calls := [⟨0, 30⟩], ret := true } := by decide

example : threadLoop wrap64 (VSyncThread.new 10) 25 0 = Outcome.blocked := by decide

example : threadLoop wrap64 ⟨true, 0, 0⟩ 25 0 = Outcome.undefined := by decide

example : threadLoop wrap64 ⟨true, 0, 16666666⟩ 16666666 0
    = Outcome.done { state := ⟨true, 49999998, 16666666⟩, next_vsync := 33333332, missed := true,
                     spec := ⟨0, 33333332⟩, calls := [⟨0, 33333332⟩], ret := true } := by decide

example : threadLoop wrap64 ⟨true, 9223372036854775800, 16666666⟩ 0 0
    = Outcome.done { state := ⟨true, -9223372036838109150, 16666666⟩,
                     next_vsync := 9223372036854775800, missed := false,
                     spec := ⟨9223372036, 854775800⟩,
                     calls := [⟨0, 9223372036854775800⟩], ret := true } := by decide

example : threadLoop wrap64 ⟨true, 9223372036854775807, 10⟩ (-10) 0
    = Outcome.done { state := ⟨true, 1, 10⟩, next_vsync := -9, missed := true,
                     spec := ⟨0, -9⟩, calls := [⟨0, -9⟩], ret := true } := by decide

example : threadLoop wrap64 ⟨true, 0, -1⟩ (-9223372036854775808) 0 = Outcome.undefined := by
  decide

example : noOverflow 16666666 16666666 0 = true := by decide

example : noOverflow 10 (-10) 9223372036854775807 = false := by decide

/-! ## Lemmas on the reduction to `int64_t` -/

theorem wrap64_of_fits (x : Int) (h : fitsInt64 x = true) : wrap64 x = x := by
  unfold fitsInt64 INT64_MIN INT64_MAX at h
  simp only [Bool.and_eq_true, decide_eq_true_eq] at h
  unfold wrap64 INT64_MIN
  omega

theorem fitsInt64_iff (x : Int) : fitsInt64 x = true ↔ INT64_MIN ≤ x ∧ x ≤ INT64_MAX := by
  unfold fitsInt64
  simp only [Bool.and_eq_true, decide_eq_true_eq]

theorem fitsInt64_wrap64 (x : Int) : fitsInt64 (wrap64 x) = true := by
  rw [fitsInt64_iff]
  unfold wrap64 INT64_MIN INT64_MAX
  omega

/-! ## Lemmas on one iteration, for every reduction -/

/-- The shape of every completed iteration. -/
theorem threadLoop_done_shape (wrap : Int → Int) (s : VSyncThread) (now res : Int)
    (it : Iteration) (h : threadLoop wrap s now res = Outcome.done it) :
    s.mEnabled = true ∧
    it.state = { s with mNextFakeVSync := wrap (it.next_vsync + s.mRefreshPeriod) } ∧
    it.spec = mkTimespec it.next_vsync ∧
    it.calls = fireCalls res it.next_vsync ∧
    it.ret = true ∧
    computeDeadline wrap s.mRefreshPeriod now s.mNextFakeVSync
      = some (it.next_vsync, it.missed) := by
  unfold threadLoop at h
  by_cases he : s.mEnabled = false
  · rw [if_pos he] at h; cases h
  · rw [if_neg he] at h
    cases hc : computeDeadline wrap s.mRefreshPeriod now s.mNextFakeVSync with
    | none => rw [hc] at h; cases h
    | some p =>
      obtain ⟨v, m⟩ := p
      rw [hc] at h
      simp only [Outcome.done.injEq] at h
      subst h
      simp at he
      simp [he]

/-- An enabled thread completes its iteration unless the `%` of line 120 is
undefined. -/
theorem threadLoop_completes (wrap : Int → Int) (s : VSyncThread) (now res : Int)
    (he : s.mEnabled = true)
    (h : (s.mRefreshPeriod ≠ 0 ∧
          wrap (Int.tdiv (wrap (now - s.mNextFakeVSync)) s.mRefreshPeriod)
            = Int.tdiv (wrap (now - s.mNextFakeVSync)) s.mRefreshPeriod) ∨
        0 ≤ wrap (s.mNextFakeVSync - now)) :
    ∃ it, threadLoop wrap s now res = Outcome.done it := by
  unfold threadLoop computeDeadline
  rw [if_neg (by simp [he])]
  simp only
  by_cases hm : wrap (s.mNextFakeVSync - now) < 0
  · rw [if_pos hm]
    rcases h with h | h
    · rw [if_neg (by simp [h.1, h.2])]
      exact ⟨_, rfl⟩
    · omega
  · rw [if_neg hm]
    exact ⟨_, rfl⟩

/-- With `nsecs_t` read as an integer, an enabled thread completes its iteration unless
line 120 divides by zero. -/
theorem threadLoop_completes_unbounded (s : VSyncThread) (now res : Int)
    (he : s.mEnabled = true) (h : s.mRefreshPeriod ≠ 0 ∨ now ≤ s.mNextFakeVSync) :
    ∃ it, threadLoop unbounded s now res = Outcome.done it := by
  refine threadLoop_completes unbounded s now res he ?_
  rcases h with h | h
  · exact Or.inl ⟨h, rfl⟩
  · exact Or.inr (by show 0 ≤ s.mNextFakeVSync - now; omega)

/-- The handler calls of a completed iteration. -/
theorem threadLoop_calls (wrap : Int → Int) (s : VSyncThread) (now res : Int)
    (it : Iteration) (h : threadLoop wrap s now res = Outcome.done it) :
    (res = 0 → it.calls = [{ dpy := 0, timestamp := it.next_vsync }]) ∧
    (res ≠ 0 → it.calls = []) ∧
    (it.calls ≠ [] ↔ res = 0) ∧
    it.ret = true := by
  obtain ⟨-, -, -, hc, hr, -⟩ := threadLoop_done_shape wrap s now res it h
  rw [hc]
  by_cases h0 : res = 0 <;> simp [fireCalls, h0, hr]

/-- The quotient of an `int64_t` value by anything but `-1` is an `int64_t` value. -/
theorem wrap64_tdiv (a period : Int) (hP : period ≠ -1) :
    wrap64 (Int.tdiv (wrap64 a) period) = Int.tdiv (wrap64 a) period := by
  have hb := (fitsInt64_iff _).1 (fitsInt64_wrap64 a)
  apply wrap64_of_fits
  rw [fitsInt64_iff]
  unfold INT64_MIN INT64_MAX at hb ⊢
  by_cases h1 : period = 1
  · subst h1
    rw [Int.tdiv_one]
    exact hb
  · by_cases h0 : period = 0
    · subst h0
      rw [Int.tdiv_zero]
      omega
    · have hn : (Int.tdiv (wrap64 a) period).natAbs
          = (wrap64 a).natAbs / period.natAbs := Int.natAbs_tdiv _ _
      have hP2 : 2 ≤ period.natAbs := by omega
      have hle : (wrap64 a).natAbs / period.natAbs ≤ (wrap64 a).natAbs / 2 :=
        Nat.div_le_div_left hP2 (by decide)
      omega

/-- An enabled thread completes its iteration of the code unless the `%` of line 120 is
undefined. -/
theorem threadLoop_completes_wrap64 (s : VSyncThread) (now res : Int)
    (he : s.mEnabled = true)
    (h : (s.mRefreshPeriod ≠ 0 ∧ s.mRefreshPeriod ≠ -1) ∨
        0 ≤ wrap64 (s.mNextFakeVSync - now)) :
    ∃ it, threadLoop wrap64 s now res = Outcome.done it := by
  refine threadLoop_completes wrap64 s now res he ?_
  rcases h with h | h
  · exact Or.inl ⟨h.1, wrap64_tdiv _ _ h.2⟩
  · exact Or.inr h

/-! ## Lemmas on one iteration without overflow -/

theorem computeDeadline_not_missed (period now next : Int) (h : now ≤ next) :
    computeDeadline unbounded period now next = some (next, false) := by
  simp only [computeDeadline, unbounded]
  rw [if_neg (by omega)]

theorem computeDeadline_missed (period now next : Int) (hP : period ≠ 0) (h : next < now) :
    computeDeadline unbounded period now next
      = some (now + (period - Int.tmod (now - next) period), true) := by
  simp only [computeDeadline, unbounded]
  rw [if_pos (by omega), if_neg (by simp [hP])]

/-- When no operation of the iteration overflows, the code computes the exact
values. -/
theorem computeDeadline_wrap64_eq (period now next : Int)
    (h : noOverflow period now next = true) :
    computeDeadline wrap64 period now next = computeDeadline unbounded period now next := by
  unfold noOverflow at h
  simp only [Bool.and_eq_true] at h
  obtain ⟨h1, h2⟩ := h
  simp only [computeDeadline, unbounded]
  rw [wrap64_of_fits _ h1]
  by_cases hm : next - now < 0
  · rw [if_pos hm] at h2
    simp only [Bool.and_eq_true] at h2
    obtain ⟨⟨⟨⟨h3, hq⟩, h4⟩, h5⟩, -⟩ := h2
    rw [wrap64_of_fits _ h3, wrap64_of_fits _ hq, wrap64_of_fits _ h4, wrap64_of_fits _ h5]
  · rw [if_neg hm, if_neg hm]

theorem threadLoop_wrap64_eq (s : VSyncThread) (now res : Int)
    (h : noOverflow s.mRefreshPeriod now s.mNextFakeVSync = true) :
    threadLoop wrap64 s now res = threadLoop unbounded s now res := by
  have hc := computeDeadline_wrap64_eq _ _ _ h
  unfold threadLoop
  rw [hc]
  by_cases he : s.mEnabled = false
  · rw [if_pos he, if_pos he]
  · rw [if_neg he, if_neg he]
    unfold noOverflow at h
    simp only [Bool.and_eq_true] at h
    obtain ⟨-, h2⟩ := h
    by_cases hm : s.mNextFakeVSync - now < 0
    · rw [if_pos hm] at h2
      simp only [Bool.and_eq_true] at h2
      obtain ⟨-, h6⟩ := h2
      by_cases hP : s.mRefreshPeriod = 0
      · simp [computeDeadline, unbounded, hm, hP]
      · rw [computeDeadline_missed _ _ _ hP (by omega)]
        simp only [unbounded]
        rw [wrap64_of_fits _ h6]
    · rw [if_neg hm] at h2
      rw [computeDeadline_not_missed _ _ _ (by omega)]
      simp only [unbounded]
      rw [wrap64_of_fits _ h2]

/-- On a missed deadline the target is the stored deadline plus `(q + 1)` periods, where
`q` is the number of whole periods that fit between the stored deadline and `now`. -/
theorem missed_target_eq (period now next : Int) (hP : 0 < period) (h : next < now) :
    now + (period - Int.tmod (now - next) period)
      = next + ((now - next) / period + 1) * period := by
  rw [Int.tmod_eq_emod (by omega) (by omega)]
  have := Int.emod_add_ediv (now - next) period
  linarith

theorem missed_target_gt (period now next : Int) (hP : 0 < period) (h : next < now) :
    now < now + (period - Int.tmod (now - next) period) := by
  rw [Int.tmod_eq_emod (by omega) (by omega)]
  have := Int.emod_lt_of_pos (now - next) hP
  omega

theorem missed_target_le (period now next : Int) (hP : 0 < period) (h : next < now) :
    now + (period - Int.tmod (now - next) period) - period ≤ now := by
  rw [Int.tmod_eq_emod (by omega) (by omega)]
  have := Int.emod_nonneg (now - next) (by omega : period ≠ 0)
  omega

/-- The shape of every completed iteration when `nsecs_t` is read as an integer. -/
theorem threadLoop_done_shape_unbounded (s : VSyncThread) (now res : Int) (it : Iteration)
    (h : threadLoop unbounded s now res = Outcome.done it) :
    s.mEnabled = true ∧
    it.state = { s with mNextFakeVSync := it.next_vsync + s.mRefreshPeriod } ∧
    it.spec = mkTimespec it.next_vsync ∧
    it.calls = fireCalls res it.next_vsync ∧
    it.ret = true ∧
    computeDeadline unbounded s.mRefreshPeriod now s.mNextFakeVSync
      = some (it.next_vsync, it.missed) :=
  threadLoop_done_shape unbounded s now res it h

/-! ## Lemmas on runs of iterations -/

/-- For a positive period the target of a completed iteration is the stored deadline
plus a whole, non-negative number of periods: none when the deadline is not missed. -/
theorem threadLoop_target (s : VSyncThread) (now res : Int) (it : Iteration)
    (hP : 0 < s.mRefreshPeriod) (h : threadLoop unbounded s now res = Outcome.done it) :
    ∃ k : Int, 0 ≤ k ∧ it.next_vsync = s.mNextFakeVSync + k * s.mRefreshPeriod ∧
      (it.missed = false → k = 0) := by
  obtain ⟨-, -, -, -, -, hc⟩ := threadLoop_done_shape_unbounded s now res it h
  by_cases hm : now ≤ s.mNextFakeVSync
  · rw [computeDeadline_not_missed _ _ _ hm] at hc
    simp only [Option.some.injEq, Prod.mk.injEq] at hc
    exact ⟨0, le_refl _, by omega, fun _ => rfl⟩
  · have hlt : s.mNextFakeVSync < now := by omega
    rw [computeDeadline_missed _ _ _ (by omega) hlt] at hc
    simp only [Option.some.injEq, Prod.mk.injEq] at hc
    refine ⟨(now - s.mNextFakeVSync) / s.mRefreshPeriod + 1, ?_, ?_, ?_⟩
    · have : 0 ≤ (now - s.mNextFakeVSync) / s.mRefreshPeriod :=
        Int.ediv_nonneg (by omega) (by omega)
      omega
    · rw [← hc.1]
      exact missed_target_eq _ _ _ hP hlt
    · intro hf
      rw [← hc.2] at hf
      cases hf

theorem threadLoop_target_mod (s : VSyncThread) (now res : Int) (it : Iteration)
    (hP : 0 < s.mRefreshPeriod) (h : threadLoop unbounded s now res = Outcome.done it) :
    it.next_vsync % s.mRefreshPeriod = s.mNextFakeVSync % s.mRefreshPeriod ∧
    it.state.mNextFakeVSync % s.mRefreshPeriod = s.mNextFakeVSync % s.mRefreshPeriod := by
  obtain ⟨k, -, hk, -⟩ := threadLoop_target s now res it hP h
  obtain ⟨-, hs, -, -, -, -⟩ := threadLoop_done_shape_unbounded s now res it h
  have h1 : it.next_vsync % s.mRefreshPeriod = s.mNextFakeVSync % s.mRefreshPeriod := by
    rw [hk, Int.add_mul_emod_self]
  refine ⟨h1, ?_⟩
  rw [hs]
  show (it.next_vsync + s.mRefreshPeriod) % s.mRefreshPeriod = _
  rw [Int.add_emod_self, h1]

theorem threadLoop_target_ge (s : VSyncThread) (now res : Int) (it : Iteration)
    (hP : 0 < s.mRefreshPeriod) (h : threadLoop unbounded s now res = Outcome.done it) :
    s.mNextFakeVSync ≤ it.next_vsync := by
  obtain ⟨k, hk0, hk, -⟩ := threadLoop_target s now res it hP h
  have : 0 ≤ k * s.mRefreshPeriod := mul_nonneg hk0 hP.le
  omega

/-- A run that starts with an iteration: the iteration completed and the rest of the
run started from the members it left. -/
theorem runLoop_cons_some (wrap : Int → Int) (s s' : VSyncThread) (now res : Int)
    (rest : List (Int × Int))
    (its : List Iteration) (h : runLoop wrap s ((now, res) :: rest) = some (s', its)) :
    ∃ it its', threadLoop wrap s now res = Outcome.done it ∧
      runLoop wrap it.state rest = some (s', its') ∧ its = it :: its' := by
  rw [runLoop] at h
  cases ht : threadLoop wrap s now res with
  | blocked => rw [ht] at h; simp at h
  | undefined => rw [ht] at h; simp at h
  | done it =>
    rw [ht] at h
    obtain ⟨-, -, -, -, hr, -⟩ := threadLoop_done_shape wrap s now res it ht
    simp only [hr, if_true] at h
    cases hrun : runLoop wrap it.state rest with
    | none => rw [hrun] at h; simp at h
    | some p =>
      obtain ⟨s₂, its₂⟩ := p
      rw [hrun] at h
      simp only [Option.some.injEq, Prod.mk.injEq] at h
      exact ⟨it, its₂, rfl, by rw [← h.1, hrun], h.2.symm⟩

theorem runLoop_cons_of_done (wrap : Int → Int) (s s' : VSyncThread) (now res : Int)
    (rest : List (Int × Int))
    (it : Iteration) (its : List Iteration) (h1 : threadLoop wrap s now res = Outcome.done it)
    (h2 : runLoop wrap it.state rest = some (s', its)) :
    runLoop wrap s ((now, res) :: rest) = some (s', it :: its) := by
  obtain ⟨-, -, -, -, hr, -⟩ := threadLoop_done_shape wrap s now res it h1
  rw [runLoop, h1]
  simp only [hr, if_true]
  rw [h2]

/-- With `nsecs_t` read as an integer, an enabled thread with a non-zero period
completes every run, one iteration for each input. -/
theorem runLoop_total (inputs : List (Int × Int)) (s : VSyncThread)
    (he : s.mEnabled = true) (hP : s.mRefreshPeriod ≠ 0) :
    ∃ s' its, runLoop unbounded s inputs = some (s', its) ∧ its.length = inputs.length := by
  induction inputs generalizing s with
  | nil => exact ⟨s, [], rfl, rfl⟩
  | cons inp rest ih =>
    obtain ⟨now, res⟩ := inp
    obtain ⟨it, hit⟩ := threadLoop_completes_unbounded s now res he (Or.inl hP)
    obtain ⟨-, hs, -, -, -, -⟩ := threadLoop_done_shape unbounded s now res it hit
    obtain ⟨s', its, hrun, hlen⟩ := ih it.state (by rw [hs]; exact he) (by rw [hs]; exact hP)
    exact ⟨s', it :: its, runLoop_cons_of_done unbounded s s' now res rest it its hit hrun,
      by simp [hlen]⟩

/-- Every target of a run, every stored deadline along it and the final one have the
phase of the initial stored deadline; no target lies before the initial stored
deadline. -/
theorem runLoop_phase (inputs : List (Int × Int)) (s s' : VSyncThread) (its : List Iteration)
    (hP : 0 < s.mRefreshPeriod) (h : runLoop unbounded s inputs = some (s', its)) :
    s'.mNextFakeVSync % s.mRefreshPeriod = s.mNextFakeVSync % s.mRefreshPeriod ∧
    s'.mRefreshPeriod = s.mRefreshPeriod ∧ s'.mEnabled = s.mEnabled ∧
    ∀ it ∈ its, it.next_vsync % s.mRefreshPeriod = s.mNextFakeVSync % s.mRefreshPeriod ∧
      it.state.mNextFakeVSync % s.mRefreshPeriod = s.mNextFakeVSync % s.mRefreshPeriod ∧
      s.mNextFakeVSync ≤ it.next_vsync ∧
      (it.calls = [] ∨ it.calls = [{ dpy := 0, timestamp := it.next_vsync }]) := by
  induction inputs generalizing s its with
  | nil =>
    rw [runLoop] at h
    simp only [Option.some.injEq, Prod.mk.injEq] at h
    obtain ⟨rfl, rfl⟩ := h
    simp
  | cons inp rest ih =>
    obtain ⟨now, res⟩ := inp
    obtain ⟨it, its', hit, hrun, rfl⟩ := runLoop_cons_some unbounded s s' now res rest its h
    obtain ⟨-, hs, -, hc, -, -⟩ := threadLoop_done_shape_unbounded s now res it hit
    obtain ⟨hm1, hm2⟩ := threadLoop_target_mod s now res it hP hit
    have hge := threadLoop_target_ge s now res it hP hit
    have hper : it.state.mRefreshPeriod = s.mRefreshPeriod := by rw [hs]
    have hen : it.state.mEnabled = s.mEnabled := by rw [hs]
    have hnx : it.state.mNextFakeVSync = it.next_vsync + s.mRefreshPeriod := by rw [hs]
    obtain ⟨i1, i2, i3, i4⟩ := ih it.state its' (by rw [hper]; exact hP) hrun
    rw [hper] at i1 i4
    refine ⟨by rw [i1, hm2], by rw [i2, hper], by rw [i3, hen], ?_⟩
    intro x hx
    rcases List.mem_cons.1 hx with rfl | hx
    · refine ⟨hm1, hm2, hge, ?_⟩
      rw [hc]
      unfold fireCalls
      split <;> simp
    · obtain ⟨j1, j2, j3, j4⟩ := i4 x hx
      exact ⟨by rw [j1, hm2], by rw [j2, hm2], by omega, j4⟩

/-- Along a run with a positive period, every later target lies at least one period
after every earlier one. -/
theorem runLoop_spaced (inputs : List (Int × Int)) (s s' : VSyncThread) (its : List Iteration)
    (hP : 0 < s.mRefreshPeriod) (h : runLoop unbounded s inputs = some (s', its)) :
    its.Pairwise (fun a b => a.next_vsync + s.mRefreshPeriod ≤ b.next_vsync) := by
  induction inputs generalizing s its with
  | nil =>
    rw [runLoop] at h
    simp only [Option.some.injEq, Prod.mk.injEq] at h
    obtain ⟨-, rfl⟩ := h
    exact List.Pairwise.nil
  | cons inp rest ih =>
    obtain ⟨now, res⟩ := inp
    obtain ⟨it, its', hit, hrun, rfl⟩ := runLoop_cons_some unbounded s s' now res rest its h
    obtain ⟨-, hs, -, -, -, -⟩ := threadLoop_done_shape_unbounded s now res it hit
    have hper : it.state.mRefreshPeriod = s.mRefreshPeriod := by rw [hs]
    have hnx : it.state.mNextFakeVSync = it.next_vsync + s.mRefreshPeriod := by rw [hs]
    have hP' : 0 < it.state.mRefreshPeriod := by rw [hper]; exact hP
    refine List.Pairwise.cons ?_ ?_
    · intro b hb
      have := ((runLoop_phase rest it.state s' its' hP' hrun).2.2.2 b hb).2.2.1
      omega
    · have := ih it.state its' hP' hrun
      rw [hper] at this
      exact this

/-- The handler calls of a run whose sleeps all returned 0: one per iteration, with the
target of that iteration. -/
theorem runLoop_deliveries_all_slept (wrap : Int → Int) (inputs : List (Int × Int))
    (s s' : VSyncThread)
    (its : List Iteration) (h : runLoop wrap s inputs = some (s', its))
    (h0 : ∀ inp ∈ inputs, inp.2 = 0) :
    deliveries its = its.map (fun it => { dpy := 0, timestamp := it.next_vsync }) := by
  induction inputs generalizing s its with
  | nil =>
    rw [runLoop] at h
    simp only [Option.some.injEq, Prod.mk.injEq] at h
    obtain ⟨-, rfl⟩ := h
    rfl
  | cons inp rest ih =>
    obtain ⟨now, res⟩ := inp
    obtain ⟨it, its', hit, hrun, rfl⟩ := runLoop_cons_some wrap s s' now res rest its h
    obtain ⟨-, -, -, hc, -, -⟩ := threadLoop_done_shape wrap s now res it hit
    have hres : res = 0 := h0 (now, res) (List.mem_cons_self _ _)
    have ih' := ih it.state its' hrun (fun inp hinp => h0 inp (List.mem_cons_of_mem _ hinp))
    unfold deliveries at ih' ⊢
    rw [List.flatMap_cons, ih', hc, hres]
    simp [fireCalls]

/-- In a run where no deadline was missed, consecutive targets are exactly one period
apart. -/
theorem runLoop_steady (inputs : List (Int × Int)) (s s' : VSyncThread) (its : List Iteration)
    (hP : 0 < s.mRefreshPeriod) (h : runLoop unbounded s inputs = some (s', its))
    (hm : ∀ it ∈ its, it.missed = false) :
    its.Chain' (fun a b => b.next_vsync = a.next_vsync + s.mRefreshPeriod) ∧
    ∀ it ∈ its.head?, it.next_vsync = s.mNextFakeVSync := by
  induction inputs generalizing s its with
  | nil =>
    rw [runLoop] at h
    simp only [Option.some.injEq, Prod.mk.injEq] at h
    obtain ⟨-, rfl⟩ := h
    simp
  | cons inp rest ih =>
    obtain ⟨now, res⟩ := inp
    obtain ⟨it, its', hit, hrun, rfl⟩ := runLoop_cons_some unbounded s s' now res rest its h
    obtain ⟨-, hs, -, -, -, -⟩ := threadLoop_done_shape_unbounded s now res it hit
    obtain ⟨k, -, hk, hk0⟩ := threadLoop_target s now res it hP hit
    have hper : it.state.mRefreshPeriod = s.mRefreshPeriod := by rw [hs]
    have hnx : it.state.mNextFakeVSync = it.next_vsync + s.mRefreshPeriod := by rw [hs]
    have hP' : 0 < it.state.mRefreshPeriod := by rw [hper]; exact hP
    obtain ⟨ih1, ih2⟩ := ih it.state its' hP' hrun
      (fun x hx => hm x (List.mem_cons_of_mem _ hx))
    rw [hper] at ih1
    refine ⟨?_, ?_⟩
    · rw [List.chain'_cons']
      refine ⟨fun b hb => ?_, ih1⟩
      rw [ih2 b hb, hnx]
    · intro x hx
      simp only [List.head?_cons, Option.mem_def, Option.some.injEq] at hx
      subst hx
      rw [hk, hk0 (hm _ (List.mem_cons_self _ _))]
      simp


/-- When no iteration of the run overflows, the code computes the exact values. -/
theorem runLoop_wrap64_eq (inputs : List (Int × Int)) (s : VSyncThread)
    (h : runNoOverflow s inputs = true) :
    runLoop wrap64 s inputs = runLoop unbounded s inputs := by
  induction inputs generalizing s with
  | nil => rfl
  | cons inp rest ih =>
    obtain ⟨now, res⟩ := inp
    rw [runNoOverflow, Bool.and_eq_true] at h
    obtain ⟨h1, h2⟩ := h
    have he := threadLoop_wrap64_eq s now res h1
    rw [he] at h2
    rw [runLoop, runLoop, he]
    cases ho : threadLoop unbounded s now res with
    | blocked => rfl
    | undefined => rfl
    | done it =>
      rw [ho] at h2
      simp only at h2
      simp only [ih it.state h2]

/-- Ordinary times do not overflow: for a positive period, a stored deadline and a clock
reading that are not negative and lie, with one period of margin for the clock
reading, below a bound `D` with `D + period ≤ INT64_MAX`, no operation of the
iteration overflows. -/
theorem noOverflow_of_bounds (period now next D : Int) (hP : 0 < period) (h0 : 0 ≤ next)
    (hD : next ≤ D) (hn0 : 0 ≤ now) (hnD : now + period ≤ D)
    (hmax : D + period ≤ INT64_MAX) :
    noOverflow period now next = true := by
  unfold INT64_MAX at hmax
  unfold noOverflow
  simp only [Bool.and_eq_true, fitsInt64_iff]
  unfold INT64_MIN INT64_MAX
  by_cases hm : next - now < 0
  · rw [if_pos hm]
    have hr0 := Int.emod_nonneg (now - next) (by omega : period ≠ 0)
    have hr1 := Int.emod_lt_of_pos (now - next) hP
    have q0 : 0 ≤ (now - next) / period := Int.ediv_nonneg (by omega) (by omega)
    have q1 : (now - next) / period ≤ now - next := Int.ediv_le_self _ (by omega)
    simp only [Bool.and_eq_true, fitsInt64_iff]
    rw [Int.tmod_eq_emod (by omega) (by omega), Int.tdiv_eq_ediv (by omega) (by omega)]
    unfold INT64_MIN INT64_MAX
    omega
  · rw [if_neg hm]
    simp only [fitsInt64_iff]
    unfold INT64_MIN INT64_MAX
    omega

/-- Ordinary runs do not overflow: for a positive period, when the stored deadline and
all clock readings are not negative and lie below a bound `D` (the clock readings
with one period of margin) that leaves room for one period per iteration below
`INT64_MAX`, no operation of the run overflows. -/
theorem runNoOverflow_of_bounds (inputs : List (Int × Int)) (s : VSyncThread) (D : Int)
    (hP : 0 < s.mRefreshPeriod) (h0 : 0 ≤ s.mNextFakeVSync) (hD : s.mNextFakeVSync ≤ D)
    (hin : ∀ inp ∈ inputs, 0 ≤ inp.1 ∧ inp.1 + s.mRefreshPeriod ≤ D)
    (hmax : D + inputs.length * s.mRefreshPeriod ≤ INT64_MAX) :
    runNoOverflow s inputs = true := by
  induction inputs generalizing s D with
  | nil => rfl
  | cons inp rest ih =>
    obtain ⟨now, res⟩ := inp
    obtain ⟨hn0, hnD⟩ := hin (now, res) (List.mem_cons_self _ _)
    have hlen : (((now, res) :: rest).length : Int) * s.mRefreshPeriod
        = rest.length * s.mRefreshPeriod + s.mRefreshPeriod := by
      rw [List.length_cons]
      push_cast
      ring
    rw [hlen] at hmax
    have hrest : 0 ≤ (rest.length : Int) * s.mRefreshPeriod :=
      mul_nonneg (Int.ofNat_nonneg _) hP.le
    have hno : noOverflow s.mRefreshPeriod now s.mNextFakeVSync = true :=
      noOverflow_of_bounds _ _ _ D hP h0 hD hn0 hnD (by omega)
    rw [runNoOverflow, Bool.and_eq_true]
    refine ⟨hno, ?_⟩
    cases ho : threadLoop wrap64 s now res with
    | blocked => rfl
    | undefined => rfl
    | done it =>
      simp only
      rw [threadLoop_wrap64_eq s now res hno] at ho
      obtain ⟨-, hs, -, -, -, hc⟩ := threadLoop_done_shape_unbounded s now res it ho
      have hper : it.state.mRefreshPeriod = s.mRefreshPeriod := by rw [hs]
      have hnx : it.state.mNextFakeVSync = it.next_vsync + s.mRefreshPeriod := by rw [hs]
      have hv : 0 ≤ it.next_vsync ∧ it.next_vsync ≤ D := by
        by_cases hm : now ≤ s.mNextFakeVSync
        · rw [computeDeadline_not_missed _ _ _ hm] at hc
          simp only [Option.some.injEq, Prod.mk.injEq] at hc
          omega
        · rw [computeDeadline_missed _ _ _ (by omega) (by omega)] at hc
          simp only [Option.some.injEq, Prod.mk.injEq] at hc
          have g1 := missed_target_gt s.mRefreshPeriod now s.mNextFakeVSync hP (by omega)
          have g2 := missed_target_le s.mRefreshPeriod now s.mNextFakeVSync hP (by omega)
          omega
      refine ih it.state (D + s.mRefreshPeriod) (by rw [hper]; exact hP) (by omega) (by omega)
        ?_ ?_
      · intro inp hinp
        obtain ⟨a, b⟩ := hin inp (List.mem_cons_of_mem _ hinp)
        rw [hper]
        omega
      · rw [hper]
        omega

/-! ## Lemmas on one iteration of the code -/

/-- The code on a deadline that is not missed, when line 117 does not overflow. -/
theorem threadLoop_wrap64_not_missed (s : VSyncThread) (now res : Int)
    (he : s.mEnabled = true) (h : now ≤ s.mNextFakeVSync)
    (hf : s.mNextFakeVSync - now ≤ INT64_MAX) :
    threadLoop wrap64 s now res = Outcome.done
      { state := { s with mNextFakeVSync := wrap64 (s.mNextFakeVSync + s.mRefreshPeriod) }
        next_vsync := s.mNextFakeVSync
        missed := false
        spec := mkTimespec s.mNextFakeVSync
        calls := fireCalls res s.mNextFakeVSync
        ret := true } := by
  have h1 : wrap64 (s.mNextFakeVSync - now) = s.mNextFakeVSync - now := by
    apply wrap64_of_fits
    rw [fitsInt64_iff]
    unfold INT64_MIN
    exact ⟨by omega, hf⟩
  unfold threadLoop computeDeadline
  rw [if_neg (by simp [he])]
  simp only [h1]
  rw [if_neg (by omega)]

/-- The code on a missed deadline, for a positive period, when lines 117-121 do not
overflow. -/
theorem threadLoop_wrap64_missed (s : VSyncThread) (now res : Int)
    (he : s.mEnabled = true) (hP : 0 < s.mRefreshPeriod) (hPm : s.mRefreshPeriod ≤ INT64_MAX)
    (hlo : INT64_MIN ≤ s.mNextFakeVSync) (h : s.mNextFakeVSync < now)
    (hd : now - s.mNextFakeVSync ≤ INT64_MAX)
    (ht : now + (s.mRefreshPeriod - (now - s.mNextFakeVSync) % s.mRefreshPeriod) ≤ INT64_MAX) :
    threadLoop wrap64 s now res = Outcome.done
      { state := { s with
          mNextFakeVSync := wrap64 (
            now + (s.mRefreshPeriod - (now - s.mNextFakeVSync) % s.mRefreshPeriod)
              + s.mRefreshPeriod) }
        next_vsync := now + (s.mRefreshPeriod - (now - s.mNextFakeVSync) % s.mRefreshPeriod)
        missed := true
        spec := mkTimespec
          (now + (s.mRefreshPeriod - (now - s.mNextFakeVSync) % s.mRefreshPeriod))
        calls := fireCalls res
          (now + (s.mRefreshPeriod - (now - s.mNextFakeVSync) % s.mRefreshPeriod))
        ret := true } := by
  have hr0 := Int.emod_nonneg (now - s.mNextFakeVSync) (by omega : s.mRefreshPeriod ≠ 0)
  have hr1 := Int.emod_lt_of_pos (now - s.mNextFakeVSync) hP
  have hmod : Int.tmod (now - s.mNextFakeVSync) s.mRefreshPeriod
      = (now - s.mNextFakeVSync) % s.mRefreshPeriod :=
    Int.tmod_eq_emod (by omega) (by omega)
  unfold INT64_MIN at hlo
  unfold INT64_MAX at hPm hd ht
  have h1 : wrap64 (s.mNextFakeVSync - now) = s.mNextFakeVSync - now := by
    apply wrap64_of_fits
    rw [fitsInt64_iff]
    unfold INT64_MIN INT64_MAX
    omega
  have h2 : wrap64 (now - s.mNextFakeVSync) = now - s.mNextFakeVSync := by
    apply wrap64_of_fits
    rw [fitsInt64_iff]
    unfold INT64_MIN INT64_MAX
    omega
  have hq : wrap64 (Int.tdiv (now - s.mNextFakeVSync) s.mRefreshPeriod)
      = Int.tdiv (now - s.mNextFakeVSync) s.mRefreshPeriod := by
    apply wrap64_of_fits
    rw [fitsInt64_iff, Int.tdiv_eq_ediv (by omega) (by omega)]
    have q0 : 0 ≤ (now - s.mNextFakeVSync) / s.mRefreshPeriod :=
      Int.ediv_nonneg (by omega) (by omega)
    have q1 : (now - s.mNextFakeVSync) / s.mRefreshPeriod ≤ now - s.mNextFakeVSync :=
      Int.ediv_le_self _ (by omega)
    unfold INT64_MIN INT64_MAX
    omega
  have h3 : wrap64 (s.mRefreshPeriod - (now - s.mNextFakeVSync) % s.mRefreshPeriod)
      = s.mRefreshPeriod - (now - s.mNextFakeVSync) % s.mRefreshPeriod := by
    apply wrap64_of_fits
    rw [fitsInt64_iff]
    unfold INT64_MIN INT64_MAX
    omega
  have h4 : wrap64 (now + (s.mRefreshPeriod - (now - s.mNextFakeVSync) % s.mRefreshPeriod))
      = now + (s.mRefreshPeriod - (now - s.mNextFakeVSync) % s.mRefreshPeriod) := by
    apply wrap64_of_fits
    rw [fitsInt64_iff]
    unfold INT64_MIN INT64_MAX
    omega
  unfold threadLoop computeDeadline
  rw [if_neg (by simp [he])]
  simp only [h1, h2, hq, hmod, h3, h4]
  rw [if_pos (by omega), if_neg (by simp; omega)]

/-- The exact target of a missed deadline, with `%` of two non-negative numbers. -/
theorem missed_target_emod (period now next : Int) (hP : 0 < period) (h : next < now) :
    now + (period - (now - next) % period)
      = now + (period - Int.tmod (now - next) period) := by
  rw [Int.tmod_eq_emod (by omega) (by omega)]

/-! ## Claims on one iteration -/

/-- C2, as the claim states it, fails on `int64_t` values: with `P = 10`, stored deadline
`-2^63` and clock reading `1` the deadline is in the past, but line 117 overflows, the
branch "missed" is not taken and the target is the stored deadline, which is not
after `now`. -/
theorem C2_missed_resync_counterexample :
    (0 : Int) < 10 ∧ (-9223372036854775808 : Int) < 1 ∧
    threadLoop wrap64 ⟨true, -9223372036854775808, 10⟩ 1 0
      = Outcome.done { state := ⟨true, -9223372036854775798, 10⟩,
                       next_vsync := -9223372036854775808, missed := false,
                       spec := ⟨-9223372036, -854775808⟩,
                       calls := [⟨0, -9223372036854775808⟩], ret := true } ∧
    ¬ ∃ it, threadLoop wrap64 ⟨true, -9223372036854775808, 10⟩ 1 0 = Outcome.done it ∧
      1 < it.next_vsync := by
  have hev : threadLoop wrap64 ⟨true, -9223372036854775808, 10⟩ 1 0
      = Outcome.done { state := ⟨true, -9223372036854775798, 10⟩,
                       next_vsync := -9223372036854775808, missed := false,
                       spec := ⟨-9223372036, -854775808⟩,
                       calls := [⟨0, -9223372036854775808⟩], ret := true } := by decide
  refine ⟨by decide, by decide, hev, ?_⟩
  rintro ⟨it, hit, hlt⟩
  rw [hev] at hit
  simp only [Outcome.done.injEq] at hit
  subst hit
  simp at hlt

/-- C2 (amended, missed-tick resynchronisation): for a period `P > 0`, a stored deadline
`next` and a clock reading `now` with `next < now`, all `int64_t` values, when lines
117-121 do not overflow (`now - next` and the exact new deadline are at most
`INT64_MAX`), the iteration completes and its target deadline is `next + k * P` for the
smallest integer `k` with `next + k * P > now`: the target is after `now`, one period
earlier is not, and `k` is positive. -/
theorem C2_missed_resync (s : VSyncThread) (now res : Int) (he : s.mEnabled = true)
    (hP : 0 < s.mRefreshPeriod) (hPm : s.mRefreshPeriod ≤ INT64_MAX)
    (hlo : INT64_MIN ≤ s.mNextFakeVSync) (h : s.mNextFakeVSync < now)
    (hd : now - s.mNextFakeVSync ≤ INT64_MAX)
    (ht : now + (s.mRefreshPeriod - (now - s.mNextFakeVSync) % s.mRefreshPeriod) ≤ INT64_MAX) :
    ∃ it, threadLoop wrap64 s now res = Outcome.done it ∧
      now < it.next_vsync ∧ it.next_vsync - s.mRefreshPeriod ≤ now ∧
      ∃ k : Int, 0 < k ∧ it.next_vsync = s.mNextFakeVSync + k * s.mRefreshPeriod ∧
        ∀ j : Int, now < s.mNextFakeVSync + j * s.mRefreshPeriod → k ≤ j := by
  refine ⟨_, threadLoop_wrap64_missed s now res he hP hPm hlo h hd ht, ?_, ?_, ?_⟩
  · show now < now + (s.mRefreshPeriod - (now - s.mNextFakeVSync) % s.mRefreshPeriod)
    rw [missed_target_emod _ _ _ hP h]
    exact missed_target_gt _ _ _ hP h
  · show now + (s.mRefreshPeriod - (now - s.mNextFakeVSync) % s.mRefreshPeriod)
      - s.mRefreshPeriod ≤ now
    rw [missed_target_emod _ _ _ hP h]
    exact missed_target_le _ _ _ hP h
  · refine ⟨(now - s.mNextFakeVSync) / s.mRefreshPeriod + 1, ?_, ?_, ?_⟩
    · have : 0 ≤ (now - s.mNextFakeVSync) / s.mRefreshPeriod :=
        Int.ediv_nonneg (by omega) (by omega)
      omega
    · show now + (s.mRefreshPeriod - (now - s.mNextFakeVSync) % s.mRefreshPeriod) = _
      rw [missed_target_emod _ _ _ hP h]
      exact missed_target_eq _ _ _ hP h
    · intro j hj
      have : (now - s.mNextFakeVSync) / s.mRefreshPeriod < j :=
        Int.ediv_lt_of_lt_mul hP (by linarith)
      omega

/-- Witness for C2 (amended): period 10, stored deadline 100, clock reading 150. -/
theorem C2_missed_resync_witness :
    (0 : Int) < 10 ∧ (10 : Int) ≤ INT64_MAX ∧ INT64_MIN ≤ (100 : Int) ∧ (100 : Int) < 150 ∧
    (150 : Int) - 100 ≤ INT64_MAX ∧ (150 : Int) + (10 - (150 - 100) % 10) ≤ INT64_MAX ∧
    ∃ it, threadLoop wrap64 ⟨true, 100, 10⟩ 150 0 = Outcome.done it ∧
      150 < it.next_vsync ∧ it.next_vsync - 10 ≤ 150 ∧
      ∃ k : Int, 0 < k ∧ it.next_vsync = 100 + k * 10 ∧
        ∀ j : Int, 150 < 100 + j * 10 → k ≤ j :=
  ⟨by decide, by decide, by decide, by decide, by decide, by decide,
    C2_missed_resync ⟨true, 100, 10⟩ 150 0 rfl (by decide) (by decide) (by decide) (by decide)
      (by decide) (by decide)⟩

/-- C3, as the claim states it, fails: with `P = 16666666` and `t0 = 16666666` (a
multiple of the period) the first iteration after the first enable targets
`33333332`, which is not the smallest multiple of `P` that is `≥ t0`. And with
`P = 10` and `t0 = 2^63 - 1` line 121 overflows and the target is negative. -/
theorem C3_first_tick_counterexample :
    threadLoop wrap64 (setEnabled (VSyncThread.new 16666666) true) 16666666 0
      = Outcome.done { state := ⟨true, 49999998, 16666666⟩, next_vsync := 33333332,
                       missed := true, spec := ⟨0, 33333332⟩, calls := [⟨0, 33333332⟩],
                       ret := true } ∧
    (¬ ∃ it, threadLoop wrap64 (setEnabled (VSyncThread.new 16666666) true) 16666666 0
        = Outcome.done it ∧
      (16666666 : Int) ∣ it.next_vsync ∧ 16666666 ≤ it.next_vsync ∧
      ∀ m : Int, (16666666 : Int) ∣ m → 16666666 ≤ m → it.next_vsync ≤ m) ∧
    threadLoop wrap64 (setEnabled (VSyncThread.new 10) true) 9223372036854775807 0
      = Outcome.done { state := ⟨true, -9223372036854775796, 10⟩,
                       next_vsync := -9223372036854775806, missed := true,
                       spec := ⟨-9223372036, -854775806⟩,
                       calls := [⟨0, -9223372036854775806⟩], ret := true } := by
  have hev : threadLoop wrap64 (setEnabled (VSyncThread.new 16666666) true) 16666666 0
      = Outcome.done { state := ⟨true, 49999998, 16666666⟩, next_vsync := 33333332,
                       missed := true, spec := ⟨0, 33333332⟩, calls := [⟨0, 33333332⟩],
                       ret := true } := by decide
  refine ⟨hev, ?_, by decide⟩
  rintro ⟨it, hit, -, -, hmin⟩
  rw [hev] at hit
  simp only [Outcome.done.injEq] at hit
  subst hit
  have := hmin 16666666 (dvd_refl _) (le_refl _)
  simp at this

/-- C3 (amended): for a period `P > 0` and a time `t0 ≥ 0`, when the first multiple of
`P` above `t0` is at most `INT64_MAX` (line 121 does not overflow), enabling the
freshly constructed thread and running the first iteration with clock reading `t0`
completes; its target deadline (the timestamp of the call it makes when the sleep
returns 0) is 0 when `t0 = 0`, and for `t0 > 0` the smallest multiple of `P` strictly
greater than `t0`. -/
theorem C3_first_tick (P t0 res : Int) (hP : 0 < P) (ht : 0 ≤ t0)
    (hfit : t0 + (P - t0 % P) ≤ INT64_MAX) :
    ∃ it, threadLoop wrap64 (setEnabled (VSyncThread.new P) true) t0 res = Outcome.done it ∧
      it.calls = fireCalls res it.next_vsync ∧
      (t0 = 0 → it.next_vsync = 0) ∧
      (0 < t0 → P ∣ it.next_vsync ∧ t0 < it.next_vsync ∧
        ∀ m : Int, P ∣ m → t0 < m → it.next_vsync ≤ m) := by
  have hr0 := Int.emod_nonneg t0 (by omega : P ≠ 0)
  have hr1 := Int.emod_lt_of_pos t0 hP
  rcases ht.eq_or_lt with h0 | hpos
  · subst h0
    refine ⟨_, threadLoop_wrap64_not_missed _ 0 res rfl
      (by simp [setEnabled, VSyncThread.new]) (by simp [setEnabled, VSyncThread.new, INT64_MAX]),
      rfl, fun _ => rfl, fun h => absurd h (lt_irrefl _)⟩
  · have hfit' : t0 + (P - (t0 - 0) % P) ≤ INT64_MAX := by simpa using hfit
    have hrle : t0 % P ≤ t0 := by
      have h1 := Int.emod_add_ediv t0 P
      have h2 : 0 ≤ P * (t0 / P) := mul_nonneg hP.le (Int.ediv_nonneg ht hP.le)
      omega
    have hPm : P ≤ INT64_MAX := by omega
    have hd : t0 - 0 ≤ INT64_MAX := by omega
    refine ⟨_, threadLoop_wrap64_missed (setEnabled (VSyncThread.new P) true) t0 res rfl hP hPm
      (by simp [setEnabled, VSyncThread.new, INT64_MIN]) hpos hd hfit',
      rfl, fun h => by omega, fun _ => ?_⟩
    show P ∣ t0 + (P - (t0 - 0) % P) ∧ t0 < t0 + (P - (t0 - 0) % P) ∧
      ∀ m : Int, P ∣ m → t0 < m → t0 + (P - (t0 - 0) % P) ≤ m
    rw [missed_target_emod P t0 0 hP hpos]
    have heq := missed_target_eq P t0 0 hP hpos
    refine ⟨?_, missed_target_gt P t0 0 hP hpos, ?_⟩
    · rw [heq, zero_add]
      exact Dvd.intro_left _ rfl
    · rintro m ⟨c, rfl⟩ hlt
      rw [heq, zero_add]
      have hq : (t0 - 0) / P < c := Int.ediv_lt_of_lt_mul hP (by linarith)
      have hc : (t0 - 0) / P + 1 ≤ c := by omega
      calc ((t0 - 0) / P + 1) * P ≤ c * P := Int.mul_le_mul_of_nonneg_right hc hP.le
        _ = P * c := mul_comm _ _

/-- Witness for C3 (amended): period 10, first enable at time 25. -/
theorem C3_first_tick_witness :
    (0 : Int) < 10 ∧ (0 : Int) ≤ 25 ∧ (25 : Int) + (10 - 25 % 10) ≤ INT64_MAX ∧
    ∃ it, threadLoop wrap64 (setEnabled (VSyncThread.new 10) true) 25 0 = Outcome.done it ∧
      it.calls = fireCalls 0 it.next_vsync ∧
      ((25 : Int) = 0 → it.next_vsync = 0) ∧
      ((0 : Int) < 25 → (10 : Int) ∣ it.next_vsync ∧ 25 < it.next_vsync ∧
        ∀ m : Int, (10 : Int) ∣ m → 25 < m → it.next_vsync ≤ m) :=
  ⟨by decide, by decide, by decide, C3_first_tick 10 25 0 (by decide) (by decide) (by decide)⟩

/-- C8 (sleep interruptions never fire and are never surfaced): an enabled thread
completes its iteration for every sleep result, in the code when the period is neither
0 nor -1 or line 118 finds the deadline not missed, and with `nsecs_t` read as an
integer when the period is not 0 or the deadline is not missed (otherwise the `%` of
line 120 is undefined); whatever the width of `nsecs_t` (for every reduction `wrap`,
so for the code at `wrap64` and without overflow at `unbounded`), in every completed
iteration the handler is called exactly once, with display 0 and the target deadline,
when `clock_nanosleep` returned 0, and not at all otherwise; and `threadLoop` returns
`true` whatever the sleep result. -/
theorem C8_fire_iff_sleep_completed (wrap : Int → Int) (s : VSyncThread) (now res : Int) :
    (s.mEnabled = true →
      ((s.mRefreshPeriod ≠ 0 ∧ s.mRefreshPeriod ≠ -1) ∨ 0 ≤ wrap64 (s.mNextFakeVSync - now)) →
      ∃ it, threadLoop wrap64 s now res = Outcome.done it) ∧
    (s.mEnabled = true → (s.mRefreshPeriod ≠ 0 ∨ now ≤ s.mNextFakeVSync) →
      ∃ it, threadLoop unbounded s now res = Outcome.done it) ∧
    ∀ it, threadLoop wrap s now res = Outcome.done it →
      (res = 0 → it.calls = [{ dpy := 0, timestamp := it.next_vsync }]) ∧
      (res ≠ 0 → it.calls = []) ∧
      (it.calls ≠ [] ↔ res = 0) ∧
      it.ret = true := by
  exact ⟨threadLoop_completes_wrap64 s now res, threadLoop_completes_unbounded s now res,
    fun it h => threadLoop_calls wrap s now res it h⟩

/-- Witness for C8: period 10, stored deadline 100, clock reading 150, once with an
interrupted sleep (result 4) and once with a completed one. -/
theorem C8_fire_iff_sleep_completed_witness :
    (∃ it, threadLoop wrap64 ⟨true, 100, 10⟩ 150 4 = Outcome.done it) ∧
    (∃ it, threadLoop unbounded ⟨true, 100, 10⟩ 150 4 = Outcome.done it) ∧
    ((4 : Int) ≠ 0 → ([] : List VSyncCall) = []) ∧
    ((0 : Int) = 0 → [(⟨0, 160⟩ : VSyncCall)] = [{ dpy := 0, timestamp := 160 }]) :=
  ⟨(C8_fire_iff_sleep_completed wrap64 ⟨true, 100, 10⟩ 150 4).1 rfl
     (Or.inl ⟨by decide, by decide⟩),
   (C8_fire_iff_sleep_completed wrap64 ⟨true, 100, 10⟩ 150 4).2.1 rfl (Or.inl (by decide)),
   ((C8_fire_iff_sleep_completed wrap64 ⟨true, 100, 10⟩ 150 4).2.2
      { state := ⟨true, 170, 10⟩, next_vsync := 160, missed := true, spec := ⟨0, 160⟩,
        calls := [], ret := true } (by decide)).2.1,
   ((C8_fire_iff_sleep_completed wrap64 ⟨true, 100, 10⟩ 150 0).2.2
      { state := ⟨true, 170, 10⟩, next_vsync := 160, missed := true, spec := ⟨0, 160⟩,
        calls := [⟨0, 160⟩], ret := true } (by decide)).1⟩

/-- C9, as the claim states it, fails on `int64_t` values: for the freshly enabled thread
with period `2^63 - 1` and clock reading 1 the target is `2^63 - 1`, line 123
overflows and the stored deadline afterwards is `-2`, not the target plus the
period. -/
theorem C9_deadline_advance_counterexample :
    threadLoop wrap64 (setEnabled (VSyncThread.new 9223372036854775807) true) 1 0
      = Outcome.done { state := ⟨true, -2, 9223372036854775807⟩,
                       next_vsync := 9223372036854775807, missed := true,
                       spec := ⟨9223372036, 854775807⟩,
                       calls := [⟨0, 9223372036854775807⟩], ret := true } ∧
    ¬ ∀ it, threadLoop wrap64 (setEnabled (VSyncThread.new 9223372036854775807) true) 1 0
        = Outcome.done it →
      it.state.mNextFakeVSync = it.next_vsync + 9223372036854775807 := by
  have hev : threadLoop wrap64 (setEnabled (VSyncThread.new 9223372036854775807) true) 1 0
      = Outcome.done { state := ⟨true, -2, 9223372036854775807⟩,
                       next_vsync := 9223372036854775807, missed := true,
                       spec := ⟨9223372036, 854775807⟩,
                       calls := [⟨0, 9223372036854775807⟩], ret := true } := by decide
  refine ⟨hev, fun hall => ?_⟩
  have := hall _ hev
  simp at this

/-- C9 (amended, the deadline advances by one period): for every period, clock reading
and sleep result, an enabled thread completes its iteration (for a period that is
neither 0 nor -1, or a deadline that line 118 finds not missed; otherwise the `%` of
line 120 is undefined), and after every completed iteration the
stored deadline is that iteration's target deadline plus the period, reduced to
`int64_t`: exactly the target plus the period whenever that sum is an `int64_t` value
(line 123 does not overflow), and then a call made by the iteration carries the stored
deadline minus the period as timestamp; any other sleep result leaves the same members
behind. -/
theorem C9_deadline_advance (s : VSyncThread) (now res : Int) :
    (s.mEnabled = true →
      ((s.mRefreshPeriod ≠ 0 ∧ s.mRefreshPeriod ≠ -1) ∨ 0 ≤ wrap64 (s.mNextFakeVSync - now)) →
      ∃ it, threadLoop wrap64 s now res = Outcome.done it) ∧
    ∀ it, threadLoop wrap64 s now res = Outcome.done it →
      it.state.mNextFakeVSync = wrap64 (it.next_vsync + s.mRefreshPeriod) ∧
      (fitsInt64 (it.next_vsync + s.mRefreshPeriod) = true →
        it.state.mNextFakeVSync = it.next_vsync + s.mRefreshPeriod ∧
        ∀ c ∈ it.calls, it.state.mNextFakeVSync = c.timestamp + s.mRefreshPeriod) ∧
      ∀ res' : Int, ∃ it', threadLoop wrap64 s now res' = Outcome.done it' ∧
        it'.state = it.state ∧ it'.next_vsync = it.next_vsync := by
  refine ⟨threadLoop_completes_wrap64 s now res, fun it h => ?_⟩
  obtain ⟨he, hs, hsp, hc, hr, hd⟩ := threadLoop_done_shape wrap64 s now res it h
  have hst : it.state.mNextFakeVSync = wrap64 (it.next_vsync + s.mRefreshPeriod) := by rw [hs]
  refine ⟨hst, fun hfit => ?_, ?_⟩
  · have hex : it.state.mNextFakeVSync = it.next_vsync + s.mRefreshPeriod := by
      rw [hst, wrap64_of_fits _ hfit]
    refine ⟨hex, ?_⟩
    intro c hcm
    rw [hc] at hcm
    unfold fireCalls at hcm
    split at hcm
    · simp only [List.mem_singleton] at hcm
      subst hcm
      exact hex
    · simp at hcm
  · intro res'
    refine ⟨{ state := it.state, next_vsync := it.next_vsync, missed := it.missed,
              spec := it.spec, calls := fireCalls res' it.next_vsync, ret := true }, ?_, rfl, rfl⟩
    unfold threadLoop
    rw [if_neg (by simp [he]), hd]
    simp only [hs, hsp]

/-- Witness for C9 (amended): period 10, stored deadline 100, clock reading 150,
interrupted sleep: target 160, stored deadline 170 afterwards. -/
theorem C9_deadline_advance_witness :
    (∃ it, threadLoop wrap64 ⟨true, 100, 10⟩ 150 4 = Outcome.done it) ∧
    fitsInt64 ((160 : Int) + 10) = true ∧
    (170 : Int) = 160 + 10 :=
  ⟨(C9_deadline_advance ⟨true, 100, 10⟩ 150 4).1 rfl (Or.inl ⟨by decide, by decide⟩),
   by decide,
   (((C9_deadline_advance ⟨true, 100, 10⟩ 150 4).2
      { state := ⟨true, 170, 10⟩, next_vsync := 160, missed := true, spec := ⟨0, 160⟩,
        calls := [], ret := true } (by decide)).2.1 (by decide)).1⟩

theorem mkTimespec_nonneg (v : Int) (hv : 0 ≤ v) :
    (mkTimespec v).tv_sec * 1000000000 + (mkTimespec v).tv_nsec = v ∧
    0 ≤ (mkTimespec v).tv_nsec ∧ (mkTimespec v).tv_nsec < 1000000000 := by
  unfold mkTimespec
  simp only
  rw [Int.tmod_eq_emod hv (by decide), Int.tdiv_eq_ediv hv (by decide)]
  refine ⟨?_, Int.emod_nonneg _ (by decide), Int.emod_lt_of_pos _ (by decide)⟩
  have := Int.emod_add_ediv v 1000000000
  linarith

/-- C10, as the claim states it, fails on `int64_t` values: with `P = 10`, stored
deadline 0 and clock reading `2^63 - 1` line 121 overflows; the target deadline and
`tv_nsec` are negative. -/
theorem C10_timespec_well_formed_counterexample :
    (0 : Int) < 10 ∧ (0 : Int) ≤ 0 ∧ (0 : Int) ≤ 9223372036854775807 ∧
    threadLoop wrap64 ⟨true, 0, 10⟩ 9223372036854775807 0
      = Outcome.done { state := ⟨true, -9223372036854775796, 10⟩,
                       next_vsync := -9223372036854775806, missed := true,
                       spec := ⟨-9223372036, -854775806⟩,
                       calls := [⟨0, -9223372036854775806⟩], ret := true } ∧
    ¬ ∃ it, threadLoop wrap64 ⟨true, 0, 10⟩ 9223372036854775807 0 = Outcome.done it ∧
      0 ≤ it.next_vsync ∧ 0 ≤ it.spec.tv_nsec := by
  have hev : threadLoop wrap64 ⟨true, 0, 10⟩ 9223372036854775807 0
      = Outcome.done { state := ⟨true, -9223372036854775796, 10⟩,
                       next_vsync := -9223372036854775806, missed := true,
                       spec := ⟨-9223372036, -854775806⟩,
                       calls := [⟨0, -9223372036854775806⟩], ret := true } := by decide
  refine ⟨by decide, by decide, by decide, hev, ?_⟩
  rintro ⟨it, hit, hneg, -⟩
  rw [hev] at hit
  simp only [Outcome.done.injEq] at hit
  subst hit
  simp at hneg

/-- C10 (amended, the absolute-deadline timespec is well formed): for a period `P > 0`,
a stored deadline `≥ 0` and a clock reading `now ≥ 0`, both `int64_t` values, when the
new deadline of a missed tick is at most `INT64_MAX` (line 121 does not overflow), the
iteration completes, its target deadline is non-negative, and the `timespec` slept on
satisfies `tv_sec * 1000000000 + tv_nsec = next_vsync` with
`0 ≤ tv_nsec < 1000000000`. -/
theorem C10_timespec_well_formed (s : VSyncThread) (now res : Int) (he : s.mEnabled = true)
    (hP : 0 < s.mRefreshPeriod) (hd : 0 ≤ s.mNextFakeVSync)
    (hdm : s.mNextFakeVSync ≤ INT64_MAX) (hn : 0 ≤ now)
    (hfit : s.mNextFakeVSync < now →
      now + (s.mRefreshPeriod - (now - s.mNextFakeVSync) % s.mRefreshPeriod) ≤ INT64_MAX) :
    ∃ it, threadLoop wrap64 s now res = Outcome.done it ∧
      0 ≤ it.next_vsync ∧
      it.spec.tv_sec * 1000000000 + it.spec.tv_nsec = it.next_vsync ∧
      0 ≤ it.spec.tv_nsec ∧ it.spec.tv_nsec < 1000000000 := by
  by_cases hm : now ≤ s.mNextFakeVSync
  · exact ⟨_, threadLoop_wrap64_not_missed s now res he hm (by omega), hd,
      mkTimespec_nonneg _ hd⟩
  · have hlt : s.mNextFakeVSync < now := by omega
    have ht := hfit hlt
    have hr0 := Int.emod_nonneg (now - s.mNextFakeVSync) (by omega : s.mRefreshPeriod ≠ 0)
    have hr1 := Int.emod_lt_of_pos (now - s.mNextFakeVSync) hP
    have hrle : (now - s.mNextFakeVSync) % s.mRefreshPeriod ≤ now - s.mNextFakeVSync := by
      have h1 := Int.emod_add_ediv (now - s.mNextFakeVSync) s.mRefreshPeriod
      have h2 : 0 ≤ s.mRefreshPeriod * ((now - s.mNextFakeVSync) / s.mRefreshPeriod) :=
        mul_nonneg hP.le (Int.ediv_nonneg (by omega) hP.le)
      omega
    have hv : 0 ≤ now + (s.mRefreshPeriod - (now - s.mNextFakeVSync) % s.mRefreshPeriod) := by
      omega
    refine ⟨_, threadLoop_wrap64_missed s now res he hP (by omega)
      (by unfold INT64_MIN; omega) hlt (by omega) ht, hv, mkTimespec_nonneg _ hv⟩

/-- Witness for C10 (amended): period 16666666, stored deadline 0, clock reading
2.5 s. -/
theorem C10_timespec_well_formed_witness :
    (0 : Int) < 16666666 ∧ (0 : Int) ≤ 0 ∧ (0 : Int) ≤ INT64_MAX ∧ (0 : Int) ≤ 2500000000 ∧
    ((0 : Int) < 2500000000 →
      (2500000000 : Int) + (16666666 - (2500000000 - 0) % 16666666) ≤ INT64_MAX) ∧
    ∃ it, threadLoop wrap64 ⟨true, 0, 16666666⟩ 2500000000 0 = Outcome.done it ∧
      0 ≤ it.next_vsync ∧
      it.spec.tv_sec * 1000000000 + it.spec.tv_nsec = it.next_vsync ∧
      0 ≤ it.spec.tv_nsec ∧ it.spec.tv_nsec < 1000000000 :=
  ⟨by decide, by decide, by decide, by decide, fun _ => by decide,
    C10_timespec_well_formed ⟨true, 0, 16666666⟩ 2500000000 0 rfl (by decide) (by decide)
      (by decide) (by decide) (fun _ => by decide)⟩

/-- The flag `missed` of an iteration of the code says that the stored deadline was in
the past, when line 117 does not overflow. -/
theorem threadLoop_wrap64_missed_iff (s : VSyncThread) (now res : Int) (it : Iteration)
    (h : threadLoop wrap64 s now res = Outcome.done it)
    (hf : fitsInt64 (s.mNextFakeVSync - now) = true) :
    it.missed = false ↔ now ≤ s.mNextFakeVSync := by
  obtain ⟨-, -, -, -, -, hc⟩ := threadLoop_done_shape wrap64 s now res it h
  simp only [computeDeadline, wrap64_of_fits _ hf] at hc
  by_cases hm : s.mNextFakeVSync - now < 0
  · rw [if_pos hm] at hc
    by_cases hP : s.mRefreshPeriod = 0 ∨
        wrap64 (Int.tdiv (wrap64 (now - s.mNextFakeVSync)) s.mRefreshPeriod)
          ≠ Int.tdiv (wrap64 (now - s.mNextFakeVSync)) s.mRefreshPeriod
    · rw [if_pos hP] at hc; cases hc
    · rw [if_neg hP] at hc
      simp only [Option.some.injEq, Prod.mk.injEq] at hc
      constructor
      · intro hf; rw [← hc.2] at hf; cases hf
      · intro hle; omega
  · rw [if_neg hm] at hc
    simp only [Option.some.injEq, Prod.mk.injEq] at hc
    constructor
    · intro _; omega
    · intro _; exact hc.2.symm

/-! ## Claims on runs of iterations -/

/-- C1 (phase preservation): with `nsecs_t` read as an integer (no overflow), for every
period `P > 0`, every initial stored deadline `d0` and every finite sequence of
iterations with arbitrary clock readings and sleep results, the run completes, and the
target deadline of each iteration, the stored deadline after each iteration, the final
stored deadline and every timestamp passed to the handler are congruent to `d0` modulo
`P`; and a run of the code in which no operation of lines 117-123 overflows `int64_t`
is that run. -/
theorem C1_phase_preserved (P d0 : Int) (hP : 0 < P) (inputs : List (Int × Int)) :
    (∃ s' its, runLoop unbounded
          { mEnabled := true, mNextFakeVSync := d0, mRefreshPeriod := P } inputs
        = some (s', its) ∧
      its.length = inputs.length ∧
      s'.mNextFakeVSync % P = d0 % P ∧
      (∀ it ∈ its, it.next_vsync % P = d0 % P ∧ it.state.mNextFakeVSync % P = d0 % P) ∧
      ∀ c ∈ deliveries its, c.timestamp % P = d0 % P) ∧
    (runNoOverflow { mEnabled := true, mNextFakeVSync := d0, mRefreshPeriod := P } inputs
        = true →
      runLoop wrap64 { mEnabled := true, mNextFakeVSync := d0, mRefreshPeriod := P } inputs
        = runLoop unbounded
            { mEnabled := true, mNextFakeVSync := d0, mRefreshPeriod := P } inputs) := by
  refine ⟨?_, fun hfit => runLoop_wrap64_eq inputs _ hfit⟩
  obtain ⟨s', its, hrun, hlen⟩ :=
    runLoop_total inputs ⟨true, d0, P⟩ rfl (by show P ≠ 0; omega)
  obtain ⟨h1, -, -, h4⟩ := runLoop_phase inputs ⟨true, d0, P⟩ s' its hP hrun
  refine ⟨s', its, hrun, hlen, h1, fun it hit => ⟨(h4 it hit).1, (h4 it hit).2.1⟩, ?_⟩
  intro c hc
  unfold deliveries at hc
  obtain ⟨it, hit, hcit⟩ := List.mem_flatMap.1 hc
  obtain ⟨j1, -, -, j4⟩ := h4 it hit
  rcases j4 with j4 | j4
  · rw [j4] at hcit; simp at hcit
  · rw [j4] at hcit
    simp only [List.mem_singleton] at hcit
    subst hcit
    exact j1

/-- Witness for C1: period 10, phase 3, three iterations, the second one late and
interrupted. -/
theorem C1_phase_preserved_witness :
    (0 : Int) < 10 ∧
    (∃ s' its, runLoop unbounded { mEnabled := true, mNextFakeVSync := 3, mRefreshPeriod := 10 }
        [(0, 0), (47, 4), (50, 0)] = some (s', its) ∧
      its.length = [((0 : Int), (0 : Int)), (47, 4), (50, 0)].length ∧
      s'.mNextFakeVSync % 10 = 3 % 10 ∧
      (∀ it ∈ its, it.next_vsync % 10 = 3 % 10 ∧ it.state.mNextFakeVSync % 10 = 3 % 10) ∧
      ∀ c ∈ deliveries its, c.timestamp % 10 = 3 % 10) ∧
    runNoOverflow { mEnabled := true, mNextFakeVSync := 3, mRefreshPeriod := 10 }
      [(0, 0), (47, 4), (50, 0)] = true ∧
    runLoop wrap64 { mEnabled := true, mNextFakeVSync := 3, mRefreshPeriod := 10 }
        [(0, 0), (47, 4), (50, 0)]
      = runLoop unbounded { mEnabled := true, mNextFakeVSync := 3, mRefreshPeriod := 10 }
          [(0, 0), (47, 4), (50, 0)] :=
  ⟨by decide, (C1_phase_preserved 10 3 (by decide) [(0, 0), (47, 4), (50, 0)]).1, by decide,
   (C1_phase_preserved 10 3 (by decide) [(0, 0), (47, 4), (50, 0)]).2 (by decide)⟩

/-- C4, as the claim states it, fails on `int64_t` values: for the enabled thread with
stored deadline 0, period `2^62` and clock readings 1 then 2, the first target is
`2^62`, line 123 overflows, and the second target is `-2^63`, below the first. -/
theorem C4_increasing_order_counterexample :
    runLoop wrap64 ⟨true, 0, 4611686018427387904⟩ [(1, 0), (2, 0)]
      = some (⟨true, -4611686018427387904, 4611686018427387904⟩,
          [ { state := ⟨true, -9223372036854775808, 4611686018427387904⟩,
              next_vsync := 4611686018427387904, missed := true,
              spec := ⟨4611686018, 427387904⟩,
              calls := [⟨0, 4611686018427387904⟩], ret := true },
            { state := ⟨true, -4611686018427387904, 4611686018427387904⟩,
              next_vsync := -9223372036854775808, missed := false,
              spec := ⟨-9223372036, -854775808⟩,
              calls := [⟨0, -9223372036854775808⟩], ret := true } ]) ∧
    ¬ ∃ s' its, runLoop wrap64 ⟨true, 0, 4611686018427387904⟩ [(1, 0), (2, 0)]
        = some (s', its) ∧
      its.Pairwise (fun a b => a.next_vsync + 4611686018427387904 ≤ b.next_vsync) := by
  have hev : runLoop wrap64 ⟨true, 0, 4611686018427387904⟩ [(1, 0), (2, 0)]
      = some (⟨true, -4611686018427387904, 4611686018427387904⟩,
          [ { state := ⟨true, -9223372036854775808, 4611686018427387904⟩,
              next_vsync := 4611686018427387904, missed := true,
              spec := ⟨4611686018, 427387904⟩,
              calls := [⟨0, 4611686018427387904⟩], ret := true },
            { state := ⟨true, -4611686018427387904, 4611686018427387904⟩,
              next_vsync := -9223372036854775808, missed := false,
              spec := ⟨-9223372036, -854775808⟩,
              calls := [⟨0, -9223372036854775808⟩], ret := true } ]) := by decide
  refine ⟨hev, ?_⟩
  rintro ⟨s', its, hrun, hpw⟩
  rw [hev] at hrun
  simp only [Option.some.injEq, Prod.mk.injEq] at hrun
  obtain ⟨-, rfl⟩ := hrun
  simp at hpw

/-- C4 (amended, increasing timestamp order): for every period `P > 0` and every run of
iterations of an enabled thread in which no operation of lines 117-123 overflows
`int64_t`, whatever the clock readings and sleep results, the run completes, the
target of every later iteration is at least the target of every earlier one plus `P`
(so also for two consecutive ones), and the timestamps passed to the handler are
strictly increasing, any two at least one period apart. -/
theorem C4_increasing_order (s : VSyncThread) (he : s.mEnabled = true)
    (hP : 0 < s.mRefreshPeriod) (inputs : List (Int × Int))
    (hfit : runNoOverflow s inputs = true) :
    ∃ s' its, runLoop wrap64 s inputs = some (s', its) ∧ its.length = inputs.length ∧
      its.Pairwise (fun a b => a.next_vsync + s.mRefreshPeriod ≤ b.next_vsync) ∧
      (deliveries its).Pairwise (fun a b => a.timestamp + s.mRefreshPeriod ≤ b.timestamp) ∧
      (deliveries its).Pairwise (fun a b => a.timestamp < b.timestamp) := by
  rw [runLoop_wrap64_eq inputs s hfit]
  obtain ⟨s', its, hrun, hlen⟩ := runLoop_total inputs s he (by omega)
  obtain ⟨-, -, -, h4⟩ := runLoop_phase inputs s s' its hP hrun
  have hsp := runLoop_spaced inputs s s' its hP hrun
  have hd : (deliveries its).Pairwise
      (fun a b => a.timestamp + s.mRefreshPeriod ≤ b.timestamp) := by
    unfold deliveries
    rw [List.pairwise_flatMap]
    constructor
    · intro it hit
      rcases (h4 it hit).2.2.2 with j | j <;> rw [j] <;> simp
    · refine List.Pairwise.imp_of_mem ?_ hsp
      intro a b ha hb hab x hx y hy
      rcases (h4 a ha).2.2.2 with j | j
      · rw [j] at hx; simp at hx
      · rcases (h4 b hb).2.2.2 with j' | j'
        · rw [j'] at hy; simp at hy
        · rw [j] at hx
          rw [j'] at hy
          simp only [List.mem_singleton] at hx hy
          subst hx
          subst hy
          exact hab
  refine ⟨s', its, hrun, hlen, hsp, hd, hd.imp ?_⟩
  intro a b hab
  omega

/-- Witness for C4 (amended): period 10, three iterations, the second one late and
interrupted. -/
theorem C4_increasing_order_witness :
    (⟨true, 3, 10⟩ : VSyncThread).mEnabled = true ∧ (0 : Int) < 10 ∧
    runNoOverflow ⟨true, 3, 10⟩ [(0, 0), (47, 4), (50, 0)] = true ∧
    ∃ s' its, runLoop wrap64 ⟨true, 3, 10⟩ [(0, 0), (47, 4), (50, 0)] = some (s', its) ∧
      its.length = [((0 : Int), (0 : Int)), (47, 4), (50, 0)].length ∧
      its.Pairwise (fun a b => a.next_vsync + 10 ≤ b.next_vsync) ∧
      (deliveries its).Pairwise (fun a b => a.timestamp + 10 ≤ b.timestamp) ∧
      (deliveries its).Pairwise (fun a b => a.timestamp < b.timestamp) :=
  ⟨rfl, by decide, by decide,
    C4_increasing_order ⟨true, 3, 10⟩ rfl (by decide) [(0, 0), (47, 4), (50, 0)] (by decide)⟩

/-- C5, as the claim states it, fails on `int64_t` values: with `P = 10`, stored deadline
`2^63 - 1` and clock reading `-10` the deadline is not in the past, but line 117
overflows and the target is `-9`, not the stored deadline; and for the enabled thread
with stored deadline 0, period `2^62` and clock readings 0, 0, 1 no iteration takes
the branch "missed", yet line 123 overflows and the targets are `0`, `2^62`,
`-2^63`. -/
theorem C5_steady_state_spacing_counterexample :
    (0 : Int) < 10 ∧ (-10 : Int) ≤ 9223372036854775807 ∧
    threadLoop wrap64 ⟨true, 9223372036854775807, 10⟩ (-10) 0
      = Outcome.done { state := ⟨true, 1, 10⟩, next_vsync := -9, missed := true,
                       spec := ⟨0, -9⟩, calls := [⟨0, -9⟩], ret := true } ∧
    (¬ ∃ it, threadLoop wrap64 ⟨true, 9223372036854775807, 10⟩ (-10) 0 = Outcome.done it ∧
      it.next_vsync = 9223372036854775807) ∧
    runLoop wrap64 ⟨true, 0, 4611686018427387904⟩ [(0, 0), (0, 0), (1, 0)]
      = some (⟨true, -4611686018427387904, 4611686018427387904⟩,
          [ { state := ⟨true, 4611686018427387904, 4611686018427387904⟩,
              next_vsync := 0, missed := false, spec := ⟨0, 0⟩,
              calls := [⟨0, 0⟩], ret := true },
            { state := ⟨true, -9223372036854775808, 4611686018427387904⟩,
              next_vsync := 4611686018427387904, missed := false,
              spec := ⟨4611686018, 427387904⟩,
              calls := [⟨0, 4611686018427387904⟩], ret := true },
            { state := ⟨true, -4611686018427387904, 4611686018427387904⟩,
              next_vsync := -9223372036854775808, missed := false,
              spec := ⟨-9223372036, -854775808⟩,
              calls := [⟨0, -9223372036854775808⟩], ret := true } ]) ∧
    ¬ ((-9223372036854775808 : Int) = 4611686018427387904 + 4611686018427387904) := by
  have hev : threadLoop wrap64 ⟨true, 9223372036854775807, 10⟩ (-10) 0
      = Outcome.done { state := ⟨true, 1, 10⟩, next_vsync := -9, missed := true,
                       spec := ⟨0, -9⟩, calls := [⟨0, -9⟩], ret := true } := by decide
  refine ⟨by decide, by decide, hev, ?_, by decide, by decide⟩
  rintro ⟨it, hit, heq⟩
  rw [hev] at hit
  simp only [Outcome.done.injEq] at hit
  subst hit
  simp at heq

/-- C5 (amended, steady-state spacing): when the stored deadline of an enabled thread is
not in the past (`now ≤ mNextFakeVSync`) and line 117 does not overflow, the iteration
completes and sleeps on exactly the stored deadline, and a completed iteration took
the branch "missed" exactly when the stored deadline was in the past; for a period
`P > 0` every run in which no operation of lines 117-123 overflows `int64_t`
completes, and if in such a run no deadline was missed, consecutive targets differ by
exactly `P`, as do the timestamps of consecutive handler calls when every sleep
returned 0. -/
theorem C5_steady_state_spacing (s : VSyncThread) (he : s.mEnabled = true) :
    (∀ now res : Int, now ≤ s.mNextFakeVSync → s.mNextFakeVSync - now ≤ INT64_MAX →
      ∃ it, threadLoop wrap64 s now res = Outcome.done it ∧
        it.next_vsync = s.mNextFakeVSync ∧ it.missed = false) ∧
    (∀ (now res : Int) (it : Iteration), threadLoop wrap64 s now res = Outcome.done it →
      fitsInt64 (s.mNextFakeVSync - now) = true →
      (it.missed = false ↔ now ≤ s.mNextFakeVSync)) ∧
    (0 < s.mRefreshPeriod → ∀ inputs : List (Int × Int), runNoOverflow s inputs = true →
      ∃ s' its, runLoop wrap64 s inputs = some (s', its) ∧ its.length = inputs.length) ∧
    (0 < s.mRefreshPeriod → ∀ (inputs : List (Int × Int)) (s' : VSyncThread)
        (its : List Iteration), runNoOverflow s inputs = true →
      runLoop wrap64 s inputs = some (s', its) →
      (∀ it ∈ its, it.missed = false) →
        its.Chain' (fun a b => b.next_vsync = a.next_vsync + s.mRefreshPeriod) ∧
        ((∀ inp ∈ inputs, inp.2 = 0) →
          (deliveries its).Chain'
            (fun a b => b.timestamp = a.timestamp + s.mRefreshPeriod))) := by
  refine ⟨fun now res h hf => ⟨_, threadLoop_wrap64_not_missed s now res he h hf, rfl, rfl⟩,
    fun now res it h hf => threadLoop_wrap64_missed_iff s now res it h hf,
    fun hP inputs hfit => ?_, ?_⟩
  · rw [runLoop_wrap64_eq inputs s hfit]
    exact runLoop_total inputs s he (by omega)
  · intro hP inputs s' its hfit hrun hm
    rw [runLoop_wrap64_eq inputs s hfit] at hrun
    have hch := (runLoop_steady inputs s s' its hP hrun hm).1
    refine ⟨hch, fun h0 => ?_⟩
    rw [runLoop_deliveries_all_slept unbounded inputs s s' its hrun h0, List.chain'_map]
    exact hch

/-- Witness for C5 (amended): period 10, three iterations none of which missed its
deadline; the targets are 30, 40, 50. -/
theorem C5_steady_state_spacing_witness :
    (∃ it, threadLoop wrap64 ⟨true, 30, 10⟩ 25 0 = Outcome.done it ∧
        it.next_vsync = (⟨true, 30, 10⟩ : VSyncThread).mNextFakeVSync ∧ it.missed = false) ∧
    runNoOverflow ⟨true, 30, 10⟩ [(25, 0), (31, 0), (50, 0)] = true ∧
    runLoop wrap64 ⟨true, 30, 10⟩ [(25, 0), (31, 0), (50, 0)]
      = some (⟨true, 60, 10⟩,
          [ { state := ⟨true, 40, 10⟩, next_vsync := 30, missed := false, spec := ⟨0, 30⟩,
              calls := [⟨0, 30⟩], ret := true },
            { state := ⟨true, 50, 10⟩, next_vsync := 40, missed := false, spec := ⟨0, 40⟩,
              calls := [⟨0, 40⟩], ret := true },
            { state := ⟨true, 60, 10⟩, next_vsync := 50, missed := false, spec := ⟨0, 50⟩,
              calls := [⟨0, 50⟩], ret := true } ]) ∧
    ([ { state := ⟨true, 40, 10⟩, next_vsync := 30, missed := false, spec := ⟨0, 30⟩,
         calls := [⟨0, 30⟩], ret := true },
       { state := ⟨true, 50, 10⟩, next_vsync := 40, missed := false, spec := ⟨0, 40⟩,
         calls := [⟨0, 40⟩], ret := true },
       { state := ⟨true, 60, 10⟩, next_vsync := 50, missed := false, spec := ⟨0, 50⟩,
         calls := [⟨0, 50⟩], ret := true } ] : List Iteration).Chain'
      (fun a b => b.next_vsync = a.next_vsync + 10) :=
  ⟨(C5_steady_state_spacing ⟨true, 30, 10⟩ rfl).1 25 0 (by decide) (by decide),
   by decide, by decide,
   ((C5_steady_state_spacing ⟨true, 30, 10⟩ rfl).2.2.2 (by decide)
      [(25, 0), (31, 0), (50, 0)] ⟨true, 60, 10⟩ _ (by decide) (by decide) (by decide)).1⟩

/-- C6, as the claim states it, fails on `int64_t` values in its part on the phase: for
the freshly enabled thread with period `P = 2^62 + 1` and clock reading 1 the target
(delivered) is `P`, congruent to 0 modulo `P`; line 123 overflows, and after disable
and enable the first target, for the clock reading 2, is `-2^63 + 2`, congruent to 4
modulo `P`. -/
theorem C6_setEnabled_keeps_phase_counterexample :
    runLoop wrap64 (setEnabled (VSyncThread.new 4611686018427387905) true) [(1, 0)]
      = some (⟨true, -9223372036854775806, 4611686018427387905⟩,
          [ { state := ⟨true, -9223372036854775806, 4611686018427387905⟩,
              next_vsync := 4611686018427387905, missed := true,
              spec := ⟨4611686018, 427387905⟩,
              calls := [⟨0, 4611686018427387905⟩], ret := true } ]) ∧
    threadLoop wrap64
        (setEnabled (setEnabled ⟨true, -9223372036854775806, 4611686018427387905⟩ false) true)
        2 0
      = Outcome.done { state := ⟨true, -4611686018427387901, 4611686018427387905⟩,
                       next_vsync := -9223372036854775806, missed := true,
                       spec := ⟨-9223372036, -854775806⟩,
                       calls := [⟨0, -9223372036854775806⟩], ret := true } ∧
    (4611686018427387905 : Int) % 4611686018427387905 = 0 ∧
    (-9223372036854775806 : Int) % 4611686018427387905 = 4 ∧
    ¬ ((-9223372036854775806 : Int) % 4611686018427387905
        = 4611686018427387905 % 4611686018427387905) := by
  refine ⟨by decide, by decide, by decide, by decide, by decide⟩

/-- C6 (amended, enable/disable keeps the phase): `setEnabled(b)` sets `mEnabled` to `b`
and leaves `mNextFakeVSync` and `mRefreshPeriod` unchanged, so disabling and enabling
again leaves the stored deadline as it was; and for a period `P > 0`, after any run
of iterations of the enabled thread followed by disable and enable, when no operation
of lines 117-123 overflows `int64_t` in the run and in the first iteration after it,
that iteration completes for the given clock reading and its target is congruent
modulo `P` to every target, and so to every delivered timestamp, from before the
disable. -/
theorem C6_setEnabled_keeps_phase (s : VSyncThread) (b : Bool) :
    (setEnabled s b).mEnabled = b ∧
    (setEnabled s b).mNextFakeVSync = s.mNextFakeVSync ∧
    (setEnabled s b).mRefreshPeriod = s.mRefreshPeriod ∧
    (setEnabled (setEnabled s false) true).mNextFakeVSync = s.mNextFakeVSync ∧
    (0 < s.mRefreshPeriod → ∀ inputs : List (Int × Int),
      runNoOverflow (setEnabled s true) inputs = true →
      ∃ s' its, runLoop wrap64 (setEnabled s true) inputs = some (s', its) ∧
        its.length = inputs.length ∧
        (setEnabled (setEnabled s' false) true).mNextFakeVSync = s'.mNextFakeVSync ∧
        ∀ now res : Int, noOverflow s.mRefreshPeriod now s'.mNextFakeVSync = true →
          ∃ it', threadLoop wrap64 (setEnabled (setEnabled s' false) true) now res
              = Outcome.done it' ∧
            (∀ it ∈ its, it'.next_vsync % s.mRefreshPeriod = it.next_vsync % s.mRefreshPeriod) ∧
            ∀ c ∈ deliveries its,
              it'.next_vsync % s.mRefreshPeriod = c.timestamp % s.mRefreshPeriod) := by
  refine ⟨rfl, rfl, rfl, rfl, ?_⟩
  intro hP inputs hfit
  rw [runLoop_wrap64_eq inputs _ hfit]
  have hP1 : 0 < (setEnabled s true).mRefreshPeriod := hP
  obtain ⟨s', its, hrun, hlen⟩ :=
    runLoop_total inputs (setEnabled s true) rfl (by omega)
  obtain ⟨h1, h2, -, h4⟩ := runLoop_phase inputs (setEnabled s true) s' its hP1 hrun
  refine ⟨s', its, hrun, hlen, rfl, fun now res hno => ?_⟩
  have hper : (setEnabled (setEnabled s' false) true).mRefreshPeriod = s.mRefreshPeriod := h2
  have hno' : noOverflow (setEnabled (setEnabled s' false) true).mRefreshPeriod now
      (setEnabled (setEnabled s' false) true).mNextFakeVSync = true := by
    rw [hper]
    exact hno
  rw [threadLoop_wrap64_eq _ now res hno']
  obtain ⟨it', hit'⟩ := threadLoop_completes_unbounded
    (setEnabled (setEnabled s' false) true) now res rfl (Or.inl (by rw [hper]; omega))
  have hm := (threadLoop_target_mod _ now res it' (by rw [hper]; exact hP) hit').1
  rw [hper] at hm
  have hall : ∀ it ∈ its, it'.next_vsync % s.mRefreshPeriod
      = it.next_vsync % s.mRefreshPeriod := by
    intro it hit
    have j1 := (h4 it hit).1
    have e1 : (setEnabled (setEnabled s' false) true).mNextFakeVSync = s'.mNextFakeVSync := rfl
    have e2 : (setEnabled s true).mRefreshPeriod = s.mRefreshPeriod := rfl
    rw [e2] at j1 h1
    rw [hm, e1, h1, j1]
  refine ⟨it', hit', hall, ?_⟩
  intro c hc
  unfold deliveries at hc
  obtain ⟨it, hit, hcit⟩ := List.mem_flatMap.1 hc
  rcases (h4 it hit).2.2.2 with j | j
  · rw [j] at hcit; simp at hcit
  · rw [j] at hcit
    simp only [List.mem_singleton] at hcit
    subst hcit
    exact hall it hit

/-- Witness for C6 (amended): period 10, two iterations after the first enable (targets
10 and 50), then disable and enable; the first iteration afterwards, for the clock
reading 100, targets 110. -/
theorem C6_setEnabled_keeps_phase_witness :
    (0 : Int) < 10 ∧
    runNoOverflow (setEnabled (VSyncThread.new 10) true) [(3, 0), (47, 4)] = true ∧
    noOverflow 10 100 60 = true ∧
    ∃ it', threadLoop wrap64 (setEnabled (setEnabled ⟨true, 60, 10⟩ false) true) 100 0
        = Outcome.done it' ∧
      ∀ it ∈ ([ { state := ⟨true, 20, 10⟩, next_vsync := 10, missed := true, spec := ⟨0, 10⟩,
                  calls := [⟨0, 10⟩], ret := true },
                { state := ⟨true, 60, 10⟩, next_vsync := 50, missed := true, spec := ⟨0, 50⟩,
                  calls := [], ret := true } ] : List Iteration),
        it'.next_vsync % 10 = it.next_vsync % 10 := by
  refine ⟨by decide, by decide, by decide, ?_⟩
  obtain ⟨s', its, hrun, -, -, hall⟩ :=
    (C6_setEnabled_keeps_phase (VSyncThread.new 10) true).2.2.2.2 (by decide)
      [(3, 0), (47, 4)] (by decide)
  have hev : runLoop wrap64 (setEnabled (VSyncThread.new 10) true) [(3, 0), (47, 4)]
      = some (⟨true, 60, 10⟩,
          [ { state := ⟨true, 20, 10⟩, next_vsync := 10, missed := true, spec := ⟨0, 10⟩,
              calls := [⟨0, 10⟩], ret := true },
            { state := ⟨true, 60, 10⟩, next_vsync := 50, missed := true, spec := ⟨0, 50⟩,
              calls := [], ret := true } ]) := by decide
  rw [hev] at hrun
  simp only [Option.some.injEq, Prod.mk.injEq] at hrun
  obtain ⟨rfl, rfl⟩ := hrun
  obtain ⟨it', hit', h1, -⟩ := hall 100 0 (by decide)
  exact ⟨it', hit', h1⟩

/-! ## The timer thread interleaved with `setEnabled`: lemmas and claim -/

/-- The four phases, taken one after the other from the enabled check, do what
`threadLoop` does; the thread being enabled, its calls are made with `mEnabled` true
when no `setEnabled` comes in between. -/
theorem runSys_iteration (wrap : Int → Int) (s : VSyncThread) (now res : Int) (it : Iteration)
    (h : threadLoop wrap s now res = Outcome.done it) :
    runSys wrap { thread := s, pc := Pc.check }
        [Action.passCheck, Action.computeDeadline now, Action.sleepReturns res, Action.fire]
      = some ({ thread := it.state, pc := Pc.check },
              it.calls.map (fun c => { call := c, enabled := true })) := by
  obtain ⟨he, hs, -, hc, -, hd⟩ := threadLoop_done_shape wrap s now res it h
  have hen : it.state.mEnabled = true := by rw [hs]; exact he
  have h1 : step wrap { thread := s, pc := Pc.check } Action.passCheck
      = some ({ thread := s, pc := Pc.compute }, []) := by
    simp [step, he]
  have h2 : step wrap { thread := s, pc := Pc.compute } (Action.computeDeadline now)
      = some ({ thread := it.state, pc := Pc.sleeping it.next_vsync }, []) := by
    simp [step, hd, hs]
  have h3 : step wrap { thread := it.state, pc := Pc.sleeping it.next_vsync } (Action.sleepReturns res)
      = some ({ thread := it.state, pc := Pc.woke it.next_vsync res }, []) := rfl
  have h4 : step wrap { thread := it.state, pc := Pc.woke it.next_vsync res } Action.fire
      = some ({ thread := it.state, pc := Pc.check },
              it.calls.map (fun c => { call := c, enabled := true })) := by
    simp [step, hc, hen]
  simp only [runSys, h1, h2, h3, h4]
  simp

/-- One step of a disabled system that is not `setEnabled(true)`: the system stays
disabled, a thread at the enabled check stays there and delivers nothing, and a
delivery (at most one) leaves the thread at the enabled check. -/
theorem step_disabled (wrap : Int → Int) (σ σ₁ : Sys) (a : Action) (d : List Delivery)
    (hd : σ.thread.mEnabled = false) (ha : a ≠ Action.setEnabled true)
    (h : step wrap σ a = some (σ₁, d)) :
    σ₁.thread.mEnabled = false ∧ (σ.pc = Pc.check → σ₁.pc = Pc.check ∧ d = []) ∧
    (d ≠ [] → σ₁.pc = Pc.check) ∧ d.length ≤ 1 := by
  obtain ⟨th, pc⟩ := σ
  simp only at hd
  cases a with
  | setEnabled b =>
    cases b with
    | true => exact absurd rfl ha
    | false =>
      simp only [step, Option.some.injEq, Prod.mk.injEq] at h
      obtain ⟨rfl, rfl⟩ := h
      simp [setEnabled]
  | passCheck =>
    cases pc <;> simp [step, hd] at h
  | computeDeadline now =>
    cases pc <;> simp only [step] at h <;> try cases h
    cases hc : computeDeadline wrap th.mRefreshPeriod now th.mNextFakeVSync with
    | none => rw [hc] at h; cases h
    | some p =>
      rw [hc] at h
      simp only [Option.some.injEq, Prod.mk.injEq] at h
      obtain ⟨rfl, rfl⟩ := h
      simp [hd]
  | sleepReturns result =>
    cases pc <;> simp only [step] at h <;> try cases h
    simp [hd]
  | fire =>
    cases pc <;> simp only [step] at h <;> try cases h
    refine ⟨hd, by simp, fun _ => rfl, ?_⟩
    unfold fireCalls
    split <;> simp

/-- While the system is disabled and no `setEnabled(true)` is taken, at most one
delivery is made, and none from the enabled check. -/
theorem runSys_disabled (wrap : Int → Int) (acts : List Action) (σ σ' : Sys) (ds : List Delivery)
    (hd : σ.thread.mEnabled = false) (hno : Action.setEnabled true ∉ acts)
    (h : runSys wrap σ acts = some (σ', ds)) :
    σ'.thread.mEnabled = false ∧ ds.length ≤ 1 ∧ (σ.pc = Pc.check → ds = []) := by
  induction acts generalizing σ ds with
  | nil =>
    simp only [runSys, Option.some.injEq, Prod.mk.injEq] at h
    obtain ⟨rfl, rfl⟩ := h
    simp [hd]
  | cons a rest ih =>
    rw [runSys] at h
    cases hst : step wrap σ a with
    | none => rw [hst] at h; cases h
    | some p =>
      obtain ⟨σ₁, d⟩ := p
      simp only [hst] at h
      cases hr : runSys wrap σ₁ rest with
      | none => simp [hr] at h
      | some q =>
        obtain ⟨σ₂, d'⟩ := q
        simp only [hr, Option.some.injEq, Prod.mk.injEq] at h
        obtain ⟨rfl, rfl⟩ := h
        have ha : a ≠ Action.setEnabled true := fun e => hno (e ▸ List.mem_cons_self _ _)
        obtain ⟨s1, s2, s3, s4⟩ := step_disabled wrap σ σ₁ a d hd ha hst
        obtain ⟨i1, i2, i3⟩ := ih σ₁ d' s1 (fun hm => hno (List.mem_cons_of_mem _ hm)) hr
        refine ⟨i1, ?_, ?_⟩
        · by_cases hdn : d = []
          · subst hdn; simpa using i2
          · rw [i3 (s3 hdn)]; simpa using s4
        · intro hpc
          obtain ⟨t1, t2⟩ := s2 hpc
          rw [t2, i3 t1]
          rfl

/-- A step that delivers is the phase `fire` of a thread whose sleep returned 0, and it
delivers one call, for display 0 with the target slept on. -/
theorem step_delivers (wrap : Int → Int) (σ σ₁ : Sys) (a : Action) (d : List Delivery)
    (h : step wrap σ a = some (σ₁, d)) (hne : d ≠ []) :
    a = Action.fire ∧ ∃ next_vsync : Int, σ.pc = Pc.woke next_vsync 0 ∧
      d = [{ call := { dpy := 0, timestamp := next_vsync }, enabled := σ.thread.mEnabled }] := by
  obtain ⟨th, pc⟩ := σ
  cases a with
  | setEnabled b =>
    simp only [step, Option.some.injEq, Prod.mk.injEq] at h
    exact absurd h.2.symm hne
  | passCheck =>
    cases pc <;> simp only [step] at h <;> try cases h
    split at h
    · cases h
    · simp only [Option.some.injEq, Prod.mk.injEq] at h
      exact absurd h.2.symm hne
  | computeDeadline now =>
    cases pc <;> simp only [step] at h <;> try cases h
    cases hc : computeDeadline wrap th.mRefreshPeriod now th.mNextFakeVSync with
    | none => rw [hc] at h; cases h
    | some p =>
      rw [hc] at h
      simp only [Option.some.injEq, Prod.mk.injEq] at h
      exact absurd h.2.symm hne
  | sleepReturns result =>
    cases pc <;> simp only [step] at h <;> try cases h
    exact absurd rfl hne
  | fire =>
    cases pc with
    | woke v r =>
      simp only [step, Option.some.injEq, Prod.mk.injEq] at h
      obtain ⟨-, rfl⟩ := h
      by_cases hr : r = 0
      · subst hr
        exact ⟨rfl, v, rfl, by simp [fireCalls]⟩
      · exact absurd (by simp [fireCalls, hr]) hne
    | check => simp [step] at h
    | compute => simp [step] at h
    | sleeping v => simp [step] at h

/-- C7, as the claim states it, fails: the thread passes its enabled check and computes
its deadline, `setEnabled(false)` is applied while it sleeps, the sleep returns 0
and the handler is called in a state where `mEnabled` is false. -/
theorem C7_disabled_delivery_counterexample :
    runSys wrap64 (Sys.init 16666666)
        [Action.setEnabled true, Action.passCheck, Action.computeDeadline 1000,
         Action.setEnabled false, Action.sleepReturns 0, Action.fire]
      = some ({ thread := ⟨false, 33333332, 16666666⟩, pc := Pc.check },
              [{ call := ⟨0, 16666666⟩, enabled := false }]) ∧
    ¬ ∀ (σ' : Sys) (ds : List Delivery),
        runSys wrap64 (Sys.init 16666666)
          [Action.setEnabled true, Action.passCheck, Action.computeDeadline 1000,
           Action.setEnabled false, Action.sleepReturns 0, Action.fire] = some (σ', ds) →
        ∀ d ∈ ds, d.enabled = true := by
  have hev : runSys wrap64 (Sys.init 16666666)
        [Action.setEnabled true, Action.passCheck, Action.computeDeadline 1000,
         Action.setEnabled false, Action.sleepReturns 0, Action.fire]
      = some ({ thread := ⟨false, 33333332, 16666666⟩, pc := Pc.check },
              [{ call := ⟨0, 16666666⟩, enabled := false }]) := by decide
  refine ⟨hev, fun hall => ?_⟩
  have := hall _ _ hev { call := ⟨0, 16666666⟩, enabled := false } (List.mem_singleton.2 rfl)
  cases this

/-- C7 (amended): in the step relation of `setEnabled(b)` and the phases of
`threadLoop`, whatever the width of `nsecs_t` (for every reduction `wrap`, so for the
code at `wrap64`), a disabled thread does not pass its enabled check; from a state where
`mEnabled` is false and as long as no `setEnabled(true)` is applied, the system stays
disabled and the handler is called at most once (by an iteration that was already
past its check), and not at all when the thread is at its check; and a call is only
made by the phase `fire` after a sleep that returned 0, once, with display 0 and the
target slept on. -/
theorem C7_delivery_while_disabled (wrap : Int → Int) (σ σ' : Sys) (acts : List Action)
    (ds : List Delivery)
    (hd : σ.thread.mEnabled = false) (hno : Action.setEnabled true ∉ acts)
    (h : runSys wrap σ acts = some (σ', ds)) :
    (∀ pc : Pc, step wrap { thread := σ.thread, pc := pc } Action.passCheck = none) ∧
    σ'.thread.mEnabled = false ∧ ds.length ≤ 1 ∧ (σ.pc = Pc.check → ds = []) ∧
    ∀ (τ τ₁ : Sys) (a : Action) (d : List Delivery), step wrap τ a = some (τ₁, d) → d ≠ [] →
      a = Action.fire ∧ ∃ next_vsync : Int, τ.pc = Pc.woke next_vsync 0 ∧
        d = [{ call := { dpy := 0, timestamp := next_vsync },
               enabled := τ.thread.mEnabled }] := by
  obtain ⟨h1, h2, h3⟩ := runSys_disabled wrap acts σ σ' ds hd hno h
  refine ⟨fun pc => ?_, h1, h2, h3, fun τ τ₁ a d hst hne => step_delivers wrap τ τ₁ a d hst hne⟩
  cases pc <;> simp [step, hd]

/-- Witness for C7 (amended): the thread was disabled while sleeping until 10; the sleep returns 0 and the one call is made. -/
theorem C7_delivery_while_disabled_witness :
    (⟨⟨false, 20, 10⟩, Pc.sleeping 10⟩ : Sys).thread.mEnabled = false ∧
    Action.setEnabled true ∉ [Action.sleepReturns 0, Action.fire] ∧
    runSys wrap64 ⟨⟨false, 20, 10⟩, Pc.sleeping 10⟩ [Action.sleepReturns 0, Action.fire]
      = some (⟨⟨false, 20, 10⟩, Pc.check⟩, [{ call := ⟨0, 10⟩, enabled := false }]) ∧
    ([{ call := ⟨0, 10⟩, enabled := false }] : List Delivery).length ≤ 1 :=
  ⟨rfl, by decide, by decide,
   (C7_delivery_while_disabled wrap64 ⟨⟨false, 20, 10⟩, Pc.sleeping 10⟩ ⟨⟨false, 20, 10⟩, Pc.check⟩
      [Action.sleepReturns 0, Action.fire] [{ call := ⟨0, 10⟩, enabled := false }]
      rfl (by decide) (by decide)).2.2.1⟩


end HWComposer
